import Mathlib

/-!
A shallow embedding of the admission-controlled screenshot job queue with
session-pool lifecycle management from `src/src/browser-durable-object.ts`
(the RPC `ScreenshotBrowserDO`, lines 587-866 of the stored file), together
with the pieces of `src/src/queue.ts` (`ScreenshotQueueManager`) and of the
older `ScreenshotBrowserDO` (lines 1-586, the `_takeScreenshot` error /
finally handling) that the claims reference.

External effects (puppeteer health probes, browser launches, screenshots,
the wall clock) are supplied by oracles; every state mutation the source
performs is mirrored by an explicit functional update, and user-visible
promise settlements are recorded as events in a trace.
-/

/-- Status field of `BrowserSession` from `src/src/types.ts` / the DO source:
`"idle" | "busy" | "launching" | "terminating" | "failed"`. -/
inductive SessionStatus
  | idle
  | busy
  | launching
  | terminating
  | failed
deriving DecidableEq, Repr

/-- The puppeteer `Browser` handle, reduced to the only field the pool logic
reads: `connected`. -/
structure Browser where
  connected : Bool
deriving DecidableEq, Repr

/-- Session record `BrowserSession`: id, optional browser handle, status, last-used time. -/
structure BrowserSession where
  id : String
  browser : Option Browser
  status : SessionStatus
  lastUsed : Nat
deriving DecidableEq, Repr

/-- Queued job `QueuedRequest`: id, target URL, enqueue timestamp. -/
structure QueuedRequest where
  id : String
  targetUrl : String
  enqueueTime : Nat
deriving DecidableEq, Repr

/-- The configuration constants of `ScreenshotBrowserDO` (readonly fields).
The code hardcodes `MAX_CONCURRENT_BROWSER_SESSIONS = 2`,
`QUEUE_TIMEOUT_MS = 30 * MINUTE`, `SESSION_TTL_MS = 5 * MINUTE`,
`ALARM_INTERVAL_MS = MINUTE`; the model is parametric so the invariants are
proved for every configured capacity. The launch and screenshot timeouts
only select which oracle outcome occurs, so they carry no extra field here:
a timeout and an operation failure reach the very same `catch` blocks. -/
structure Config where
  maxConcurrentBrowserSessions : Nat
  queueTimeoutMs : Nat
  sessionTtlMs : Nat
  alarmIntervalMs : Nat
deriving DecidableEq, Repr

/-- The constants as written in the source (`MINUTE = 60_000`). -/
def cfgDefault : Config :=
  { maxConcurrentBrowserSessions := 2
    queueTimeoutMs := 30 * 60000
    sessionTtlMs := 5 * 60000
    alarmIntervalMs := 60000 }

/-- Lookup `this.sessions.get(id)` on the insertion-ordered session map. -/
def findSession : List BrowserSession → String → Option BrowserSession
  | [], _ => none
  | s :: rest, i => if s.id = i then some s else findSession rest i

/-- Write `this.sessions.set(s.id, s)`: replace in place if the key exists,
otherwise append (JS `Map` preserves insertion order). -/
def setSessionEntry : List BrowserSession → BrowserSession → List BrowserSession
  | [], s => [s]
  | t :: rest, s => if t.id = s.id then s :: rest else t :: setSessionEntry rest s

/-- In-place mutation of the session object stored under `id` (the source
aliases the map entry and assigns to its fields). -/
def updateSession : List BrowserSession → String → (BrowserSession → BrowserSession) → List BrowserSession
  | [], _, _ => []
  | s :: rest, i, f => if s.id = i then f s :: rest else s :: updateSession rest i f

/-- Deletion `this.sessions.delete(id)`. -/
def removeSessionEntry : List BrowserSession → String → List BrowserSession
  | [], _ => []
  | s :: rest, i => if s.id = i then rest else s :: removeSessionEntry rest i

/-- A session counts toward pool occupancy when its status is in
`{launching, idle, busy}` (spec section 3's active set). -/
def SessionStatus.isActive : SessionStatus → Bool
  | .idle => true
  | .busy => true
  | .launching => true
  | .terminating => false
  | .failed => false

/-- Number of sessions whose status is in `{launching, idle, busy}`. -/
def activeCount (ss : List BrowserSession) : Nat :=
  (ss.filter (fun s => s.status.isActive)).length

namespace DO

/-- Observable events of a run: caller-visible promise settlements,
queue admissions/evictions and pool mutations. -/
inductive Ev
  | enqueued (jobId : String) (t : Nat)
  | staleDropped (jobId : String) (enqT : Nat) (now : Nat)
  | rejectedQT (jobId : String) (enqT : Nat) (now : Nat)
  | dispatched (jobId : String) (sessionId : String) (enqT : Nat) (now : Nat)
  | settledOk (jobId : String)
  | settledErr (jobId : String)
  | pendingRemoved (jobId : String)
  | sessionRemoved (sessionId : String)
  | alarmRearmed (t : Nat)
deriving DecidableEq, Repr

/-- The runtime state of `ScreenshotBrowserDO`: the session map, the
in-memory queue, the `pending` result table (modelled as the list of job
ids that currently own a live resolve/reject handle), the `processing`
flag, and the set of dispatched-but-unfinished `executeJob` tasks. -/
structure DOState where
  sessions : List BrowserSession
  queue : List QueuedRequest
  pending : List String
  processing : Bool
  inflight : List (String × String)
deriving DecidableEq, Repr

/-- A fresh DO instance with nothing restored from storage. -/
def initState : DOState :=
  { sessions := [], queue := [], pending := [], processing := false, inflight := [] }

/-- The eligibility condition inside `cleanupSession` (lines 815-821):
`force || terminating || failed || (idle && idle-time > TTL) ||
(s.browser && !s.browser.connected)`. -/
def shouldClean (cfg : Config) (now : Nat) (s : BrowserSession) (force : Bool) : Bool :=
  force || s.status = SessionStatus.terminating || s.status = SessionStatus.failed
    || (s.status = SessionStatus.idle && decide (cfg.sessionTtlMs < now - s.lastUsed))
    || (match s.browser with
        | some b => !b.connected
        | none => false)

/-- Teardown `cleanupSession(id, force)` (lines 812-828): look up the session, check
eligibility, best-effort close the browser, delete the entry, persist. -/
def cleanupSession (cfg : Config) (now : Nat) (st : DOState) (id : String) (force : Bool) :
    DOState × List Ev :=
  match findSession st.sessions id with
  | none => (st, [])
  | some s =>
    if shouldClean cfg now s force then
      ({ st with sessions := removeSessionEntry st.sessions id }, [Ev.sessionRemoved id])
    else (st, [])

/-- Staleness check `Date.now() - job.enqueueTime > QUEUE_TIMEOUT_MS` (JS subtraction of a
later enqueue time yields a negative number, which is never `>` the
timeout, exactly like truncated `Nat` subtraction). -/
def isStale (cfg : Config) (now : Nat) (j : QueuedRequest) : Bool :=
  decide (cfg.queueTimeoutMs < now - j.enqueueTime)

/-- Result of the stale-drop loop. -/
structure DropRes where
  queue : List QueuedRequest
  pending : List String
  evs : List Ev
deriving Repr

/-- The stale-drop loop at the top of each `kickoffQueue` iteration
(lines 655-663): `while (queue.length && Date.now() - queue[0].enqueueTime
> QUEUE_TIMEOUT_MS) { shift; pending.get(id)?.reject(new Error("Job timed
out in queue")); pending.delete(id); }`. The shift is unconditional
(`staleDropped`); the rejection and table removal only happen when a
pending entry exists (`?.`). -/
def dropStaleGo (cfg : Config) (now : Nat) :
    List QueuedRequest → List String → DropRes
  | [], pending => ⟨[], pending, []⟩
  | j :: rest, pending =>
    if isStale cfg now j then
      let settleEvs :=
        if pending.contains j.id then
          [Ev.rejectedQT j.id j.enqueueTime now, Ev.pendingRemoved j.id]
        else []
      let r := dropStaleGo cfg now rest (pending.erase j.id)
      ⟨r.queue, r.pending, Ev.staleDropped j.id j.enqueueTime now :: settleEvs ++ r.evs⟩
    else ⟨j :: rest, pending, []⟩

/-- Reuse condition `s.status === "idle" && s.browser?.connected` (line 688). -/
def isIdleConnected (s : BrowserSession) : Bool :=
  s.status = SessionStatus.idle
    && (match s.browser with
        | some b => b.connected
        | none => false)

/-- Result of the idle-reuse scan inside `getSession`. -/
structure ScanRes where
  sessions : List BrowserSession
  found : Option BrowserSession
  evs : List Ev
deriving Repr

/-- The idle-reuse scan of `getSession` (lines 687-699): for each session
that is idle with a connected browser, run the health probe (`newPage`
then `close`); on success refresh `lastUsed` and return the session, on
probe failure `cleanupSession(s.id, true)` and keep scanning. -/
def scanIdle (probeOk : String → Bool) (now : Nat) :
    List BrowserSession → ScanRes
  | [] => ⟨[], none, []⟩
  | s :: rest =>
    if isIdleConnected s then
      if probeOk s.id then
        let s1 := { s with lastUsed := now }
        ⟨s1 :: rest, some s1, []⟩
      else
        let r := scanIdle probeOk now rest
        ⟨r.sessions, r.found, Ev.sessionRemoved s.id :: r.evs⟩
    else
      let r := scanIdle probeOk now rest
      ⟨s :: r.sessions, r.found, r.evs⟩

/-- Errors of `getSession`: it throws `NoAvailableSessionError` when the pool is full and
rethrows launch failures/timeouts; both surface here as `Except.error`. -/
inductive AcquireErr
  | noAvailableSession
  | launchFailed
deriving DecidableEq, Repr

/-- External nondeterminism consumed by one `getSession` call: the health
probe outcome per session id, the launch outcome (a `withTimeout` timeout
and a launch failure land in the same `catch`), the fresh
`crypto.randomUUID()` and the clock. -/
structure GSOracle where
  probeOk : String → Bool
  launchOk : Bool
  newId : String
  now : Nat

/-- Result of `getSession`. -/
structure GSRes where
  st : DOState
  evs : List Ev
  result : Except AcquireErr BrowserSession

/-- Acquire `getSession` (lines 685-729): reuse a healthy idle session; otherwise,
if `sessions.size >= MAX_CONCURRENT_BROWSER_SESSIONS`, throw
`NoAvailableSessionError`; otherwise insert a `launching` entry with a
null browser, attempt the launch under `withTimeout`, and on success
mutate the entry to a connected `idle` session and return it, while on
failure `cleanupSession(id, true)` removes the entry and the error is
rethrown. -/
def getSession (cfg : Config) (o : GSOracle) (st : DOState) : GSRes :=
  let sc := scanIdle o.probeOk o.now st.sessions
  match sc.found with
  | some s => ⟨{ st with sessions := sc.sessions }, sc.evs, Except.ok s⟩
  | none =>
    let st1 : DOState := { st with sessions := sc.sessions }
    if cfg.maxConcurrentBrowserSessions ≤ st1.sessions.length then
      ⟨st1, sc.evs, Except.error AcquireErr.noAvailableSession⟩
    else
      let fresh : BrowserSession :=
        { id := o.newId, browser := none, status := SessionStatus.launching, lastUsed := o.now }
      let st2 : DOState := { st1 with sessions := setSessionEntry st1.sessions fresh }
      if o.launchOk then
        let live : BrowserSession :=
          { id := o.newId, browser := some { connected := true },
            status := SessionStatus.idle, lastUsed := o.now }
        ⟨{ st2 with sessions := updateSession st2.sessions o.newId (fun _ => live) },
          sc.evs, Except.ok live⟩
      else
        ⟨{ st2 with sessions := removeSessionEntry st2.sessions o.newId },
          sc.evs ++ [Ev.sessionRemoved o.newId], Except.error AcquireErr.launchFailed⟩

/-- Per-iteration external inputs of the `kickoffQueue` loop: the clock
sample for the stale checks and the `getSession` oracle. -/
structure IterOracle where
  now : Nat
  gs : GSOracle

/-- Result of one `kickoffQueue` invocation; `thrown` is an exception that
escaped the loop (only `NoAvailableSessionError` is caught). -/
structure KickRes where
  st : DOState
  evs : List Ev
  thrown : Option AcquireErr

/-- The state mutation performed when the loop dispatches the head job `j`
to session `sid`: `this.queue.shift()` already removed `j`, the synchronous
prefix of `executeJob` (line 733) marks the session object `busy`, and the
rest of `executeJob` becomes an inflight task. -/
def dispatchState (st : DOState) (sid : String) (j : QueuedRequest)
    (rest : List QueuedRequest) : DOState :=
  { st with
    queue := rest
    sessions := updateSession st.sessions sid
      (fun t => { t with status := SessionStatus.busy })
    inflight := st.inflight ++ [(j.id, sid)] }

/-- The body of `kickoffQueue` (lines 652-678), one oracle per loop
iteration (the oracle list also serves as fuel; the real loop always
terminates because every iteration removes a queue element or breaks).
Each iteration drops stale head jobs, breaks on an empty queue, acquires a
session (breaking on `NoAvailableSessionError`, rethrowing anything else),
then shifts the head job and fires `executeJob` without awaiting it; the
synchronous prefix of `executeJob` (line 733) marks the session busy
before its first await, and the rest runs as an inflight task. -/
def kickLoop (cfg : Config) : List IterOracle → DOState → KickRes
  | [], st => ⟨st, [], none⟩
  | o :: os, st =>
    let dr := dropStaleGo cfg o.now st.queue st.pending
    let st1 : DOState := { st with queue := dr.queue, pending := dr.pending }
    if st1.queue.isEmpty then ⟨st1, dr.evs, none⟩
    else
      let g := getSession cfg o.gs st1
      match g.result with
      | Except.error AcquireErr.noAvailableSession => ⟨g.st, dr.evs ++ g.evs, none⟩
      | Except.error e => ⟨g.st, dr.evs ++ g.evs, some e⟩
      | Except.ok s =>
        match g.st.queue with
        | [] => ⟨g.st, dr.evs ++ g.evs, none⟩
        | j :: rest =>
          let k := kickLoop cfg os (dispatchState g.st s.id j rest)
          ⟨k.st, dr.evs ++ g.evs ++ Ev.dispatched j.id s.id j.enqueueTime o.now :: k.evs, k.thrown⟩

/-- A `kickoffQueue` trigger (lines 648-651, 679-681): return immediately
if `processing` is set, otherwise set it, run the loop, and clear it in
the `finally` even when an exception escapes. -/
def kickStep (cfg : Config) (os : List IterOracle) (st : DOState) : KickRes :=
  if st.processing then ⟨st, [], none⟩
  else
    let k := kickLoop cfg os { st with processing := true }
    ⟨{ k.st with processing := false }, k.evs, k.thrown⟩

/-- Enqueue `takeScreenshotJob` (lines 640-645): push the job, register the
settle-once handle in `pending` (`Map.set`: a duplicate id would replace,
so an existing entry is kept), and trigger the dispatcher (the trigger is
a separate `Label.kick`). -/
def enqueueStep (st : DOState) (id url : String) (t : Nat) : DOState × List Ev :=
  ({ st with
      queue := st.queue ++ [⟨id, url, t⟩]
      pending := if st.pending.contains id then st.pending else st.pending ++ [id] },
    [Ev.enqueued id t])

/-- The asynchronous remainder of `executeJob` (lines 736-752) for a
dispatched job: settle the pending handle (`?.resolve` on success,
`?.reject` on any failure — no classification of the error), then in the
`finally` delete the pending entry, set the session object back to `idle`
with a fresh `lastUsed` (a no-op on the map when the entry was removed),
and re-trigger the dispatcher (a separate `Label.kick`). -/
def finishStep (st : DOState) (jobId sessionId : String) (ok : Bool) (now : Nat) :
    DOState × List Ev :=
  if st.inflight.contains (jobId, sessionId) then
    let settleEvs :=
      if st.pending.contains jobId then
        [if ok then Ev.settledOk jobId else Ev.settledErr jobId, Ev.pendingRemoved jobId]
      else []
    ({ st with
        pending := st.pending.erase jobId
        inflight := st.inflight.erase (jobId, sessionId)
        sessions := updateSession st.sessions sessionId
          (fun t => { t with status := SessionStatus.idle, lastUsed := now }) },
      settleEvs)
  else (st, [])

/-- The sweep inside `alarm()` (lines 855-857): `cleanupSession(id)` with
`force = false` over a snapshot of the key set. -/
def alarmSweep (cfg : Config) (now : Nat) : DOState → List String → DOState × List Ev
  | st, [] => (st, [])
  | st, id :: ids =>
    let (st1, evs1) := cleanupSession cfg now st id false
    let (st2, evs2) := alarmSweep cfg now st1 ids
    (st2, evs1 ++ evs2)

/-- Reaper `alarm()` (lines 854-860): sweep every session, trigger the dispatcher
(fire-and-forget, a separate `Label.kick`), re-arm the alarm. -/
def alarmStep (cfg : Config) (now : Nat) (st : DOState) : DOState × List Ev :=
  let (st1, evs) := alarmSweep cfg now st (st.sessions.map (fun s => s.id))
  (st1, evs ++ [Ev.alarmRearmed (now + cfg.alarmIntervalMs)])

/-- An external disconnection of a session's browser (remote Chromium
exit): flips the `connected` flag the pool logic reads. -/
def disconnectStep (st : DOState) (sid : String) : DOState :=
  { st with
    sessions := updateSession st.sessions sid
      (fun s => { s with browser := s.browser.map (fun _ => { connected := false }) }) }

/-- One schedulable step of the DO, with its external inputs. -/
inductive Label
  | enq (id url : String) (t : Nat)
  | kick (os : List IterOracle)
  | finish (jobId sessionId : String) (ok : Bool) (t : Nat)
  | alarmTick (t : Nat)
  | disconnect (sid : String)

/-- Apply one label. A thrown dispatcher exception is an unhandled promise
rejection in the source (`void this.kickoffQueue()`), so it does not alter
the state beyond what the loop already did. -/
def step (cfg : Config) (st : DOState) : Label → DOState × List Ev
  | Label.enq id url t => enqueueStep st id url t
  | Label.kick os => let k := kickStep cfg os st; (k.st, k.evs)
  | Label.finish j sid ok t => finishStep st j sid ok t
  | Label.alarmTick t => alarmStep cfg t st
  | Label.disconnect sid => (disconnectStep st sid, [])

/-- Run a schedule of labels, concatenating the event trace. -/
def run (cfg : Config) (st : DOState) : List Label → DOState × List Ev
  | [] => (st, [])
  | l :: ls =>
    let p := step cfg st l
    let q := run cfg p.1 ls
    (q.1, p.2 ++ q.2)

/-- Ids enqueued by a schedule. -/
def enqLabelIds : List Label → List String
  | [] => []
  | Label.enq id _ _ :: ls => id :: enqLabelIds ls
  | _ :: ls => enqLabelIds ls

/-- The sweep of `alarm()` with fallible cleanup: each `cleanupSession`
awaits `browser.close()` (whose failure the source swallows) and then
`storage.put` inside `saveSessionsMeta`, whose rejection is *not* caught
anywhere in `alarm()`. `fails id` says the awaited cleanup step for `id`
rejects; the exception then propagates out of the sweep. -/
def alarmSweepF (cfg : Config) (now : Nat) (fails : String → Bool) :
    DOState → List String → Except String (DOState × List Ev)
  | st, [] => Except.ok (st, [])
  | st, id :: ids =>
    if fails id then Except.error "storage put rejected in cleanupSession"
    else
      let p := cleanupSession cfg now st id false
      match alarmSweepF cfg now fails p.1 ids with
      | Except.ok (st2, evs2) => Except.ok (st2, p.2 ++ evs2)
      | Except.error e => Except.error e

/-- Reaper `alarm()` with fallible cleanup steps: the `setAlarm` re-arm (line 859)
runs only after every awaited `cleanupSession` has completed; an exception
from any of them propagates out of `alarm()` before the re-arm. The
dispatcher trigger is `void`-ed, so its errors cannot block the re-arm. -/
def alarmF (cfg : Config) (now : Nat) (fails : String → Bool) (st : DOState) :
    Except String (DOState × List Ev) :=
  match alarmSweepF cfg now fails st (st.sessions.map (fun s => s.id)) with
  | Except.ok (st1, evs) => Except.ok (st1, evs ++ [Ev.alarmRearmed (now + cfg.alarmIntervalMs)])
  | Except.error e => Except.error e

end DO

namespace Legacy

/-- The `catch` block of `_takeScreenshot` in the older `ScreenshotBrowserDO`
(lines 350-355): on *any* error during the screenshot — navigation
timeout, page error, R2 upload failure alike — set the session's status to
`terminating`, then `cleanupSession(session.id, true)` (forced teardown),
then rethrow. -/
def screenshotCatch (cfg : Config) (now : Nat) (st : DO.DOState) (sid : String) :
    DO.DOState × List DO.Ev :=
  let st1 : DO.DOState :=
    { st with
      sessions := updateSession st.sessions sid
        (fun s => { s with status := SessionStatus.terminating }) }
  DO.cleanupSession cfg now st1 sid true

/-- The `finally` block of `_takeScreenshot` (lines 366-373): if the session
is still tracked and its status is `busy`, release it back to `idle` with a
fresh `lastUsed`; a session in any other status — `terminating`, `failed`,
already `idle` — is left untouched. -/
def screenshotFinally (st : DO.DOState) (sid : String) (now : Nat) : DO.DOState :=
  match findSession st.sessions sid with
  | some s =>
    if s.status = SessionStatus.busy then
      { st with
        sessions := updateSession st.sessions sid
          (fun t => { t with status := SessionStatus.idle, lastUsed := now }) }
    else st
  | none => st

end Legacy

namespace SQM

/-- Errors of `ScreenshotQueueManager` (`src/src/errors/index.ts` plus plain
JS errors): stale jobs are rejected with the `QueueTimeoutError` class. -/
inductive SErr
  | queueTimeoutError (msg : String)
  | jsError (msg : String)
deriving DecidableEq, Repr

/-- Caller-visible events of the queue manager. -/
inductive SEv
  | rejected (jobId : String) (e : SErr)
  | resolvedOk (jobId : String)
  | dispatched (jobId : String) (sessionId : String)
deriving DecidableEq, Repr

/-- State of `ScreenshotQueueManager` (`src/src/queue.ts` lines 16-21):
queue, `pendingRequests` table (ids holding a live handle), the
`processing` flag and the `activeSessions` set. The `sessionId` field a
dispatch writes into its pending request only labels the eventual result,
so it is carried in the `dispatched` event instead of the state. -/
structure QState where
  queue : List QueuedRequest
  pending : List String
  processing : Bool
  activeSessions : List String
deriving DecidableEq, Repr

/-- Staleness check `isJobStale` (lines 91-93). -/
def isJobStale (queueTimeout : Nat) (now : Nat) (j : QueuedRequest) : Bool :=
  decide (queueTimeout < now - j.enqueueTime)

/-- Eviction `removeStaleJobs` (lines 82-89) with `rejectJob` (lines 95-98) inlined:
shift stale head jobs, rejecting each with
`new QueueTimeoutError("Job timed out in queue")` and deleting its pending
entry, until the head is fresh or the queue is empty. -/
def removeStaleJobs (queueTimeout : Nat) (now : Nat) :
    List QueuedRequest → List String → List QueuedRequest × List String × List SEv
  | [], pending => ([], pending, [])
  | j :: rest, pending =>
    if isJobStale queueTimeout now j then
      let evs1 :=
        if pending.contains j.id then
          [SEv.rejected j.id (SErr.queueTimeoutError "Job timed out in queue")]
        else []
      let r := removeStaleJobs queueTimeout now rest (pending.erase j.id)
      (r.1, r.2.1, evs1 ++ r.2.2)
    else (j :: rest, pending, [])

/-- Capacity guard `canProcessNewJob` (lines 100-102):
`activeSessions.size < MAX_CONCURRENT_BROWSER_SESSIONS`. -/
def canProcessNewJob (maxConc : Nat) (st : QState) : Bool :=
  decide (st.activeSessions.length < maxConc)

/-- One `processQueue` pass (lines 49-80): bail out if already processing;
otherwise set the flag, remove stale jobs, stop if the queue is empty or
no session slot is free, else shift one job and fire `executeJob` (whose
synchronous prefix, lines 105-111, adds a fresh session id to
`activeSessions`). The `finally` clears the flag and, when jobs remain
queued, schedules exactly one retry pass via `setTimeout(..., 100)` — the
returned `Bool` reports whether that retry was scheduled. -/
def processQueue (maxConc queueTimeout : Nat) (now : Nat) (newSessionId : String)
    (st : QState) : QState × List SEv × Bool :=
  if st.processing then (st, [], false)
  else
    let st0 : QState := { st with processing := true }
    let r := removeStaleJobs queueTimeout now st0.queue st0.pending
    let st1 : QState := { st0 with queue := r.1, pending := r.2.1 }
    let body : QState × List SEv :=
      if st1.queue.isEmpty then (st1, [])
      else if !canProcessNewJob maxConc st1 then (st1, [])
      else
        match st1.queue with
        | [] => (st1, [])
        | j :: rest =>
          ({ st1 with queue := rest, activeSessions := st1.activeSessions ++ [newSessionId] },
            [SEv.dispatched j.id newSessionId])
    let st2 : QState := { body.1 with processing := false }
    (st2, r.2.2 ++ body.2, !st2.queue.isEmpty)

/-- The remainder of `executeJob` (lines 113-124): resolve or reject the
pending request, then in the `finally` delete the pending entry and
release the session slot. -/
def executeJobFinish (st : QState) (jobId sessionId : String) (ok : Bool) :
    QState × List SEv :=
  let evs :=
    if st.pending.contains jobId then
      [if ok then SEv.resolvedOk jobId else SEv.rejected jobId (SErr.jsError "job failed")]
    else []
  ({ st with
      pending := st.pending.erase jobId
      activeSessions := st.activeSessions.erase sessionId },
    evs)

end SQM

namespace DO

/-- Id of a queue-removal event (a stale drop or a dispatch: the only two
places the source calls `this.queue.shift()`). -/
def Ev.removalId : Ev → Option String
  | Ev.staleDropped j _ _ => some j
  | Ev.dispatched j _ _ _ => some j
  | _ => none

/-- Id of an enqueue event. -/
def Ev.enqId : Ev → Option String
  | Ev.enqueued j _ => some j
  | _ => none

/-- Id of a dispatch event. -/
def Ev.dispId : Ev → Option String
  | Ev.dispatched j _ _ _ => some j
  | _ => none

/-- Id of a stale-drop event. -/
def Ev.staleId : Ev → Option String
  | Ev.staleDropped j _ _ => some j
  | _ => none

/-- Id of a settlement event: a queue-timeout rejection, a resolution, or
an execution-failure rejection of the job's pending handle. -/
def Ev.settleId : Ev → Option String
  | Ev.rejectedQT j _ _ => some j
  | Ev.settledOk j => some j
  | Ev.settledErr j => some j
  | _ => none

/-- Id of a pending-table removal event. -/
def Ev.remPendId : Ev → Option String
  | Ev.pendingRemoved j => some j
  | _ => none

/-- Queue removals of a trace, in order. -/
def removedIds (tr : List Ev) : List String := tr.filterMap Ev.removalId

/-- Enqueued ids of a trace, in order. -/
def enqueuedIds (tr : List Ev) : List String := tr.filterMap Ev.enqId

/-- Dispatched ids of a trace, in order. -/
def dispatchedIds (tr : List Ev) : List String := tr.filterMap Ev.dispId

/-- Stale-dropped ids of a trace, in order. -/
def staleIds (tr : List Ev) : List String := tr.filterMap Ev.staleId

/-- Number of settlements of `id`'s pending handle in a trace. -/
def settleCount (tr : List Ev) (id : String) : Nat :=
  (tr.filterMap Ev.settleId).count id

/-- Number of pending-table removals of `id` in a trace. -/
def removePendCount (tr : List Ev) (id : String) : Nat :=
  (tr.filterMap Ev.remPendId).count id

/-- Number of enqueues of `id` in a trace. -/
def enqCount (tr : List Ev) (id : String) : Nat :=
  (enqueuedIds tr).count id

/-- Every settlement event is immediately followed by the removal of the
same job's pending entry (the source settles and then deletes, with
nothing in between). -/
def pairedSettles : List Ev → Bool
  | [] => true
  | e :: rest =>
    match Ev.settleId e with
    | none => pairedSettles rest
    | some j =>
      match rest with
      | Ev.pendingRemoved j2 :: rest2 => j = j2 && pairedSettles rest2
      | _ => false

/-- Timing facts of a single event: a stale drop / queue-timeout rejection
happens strictly after `enqueueTime + QUEUE_TIMEOUT_MS`, and a dispatch
happens while the job's queue-residence time is still within the
timeout. -/
def evTimingOk (cfg : Config) : Ev → Bool
  | Ev.staleDropped _ t n => decide (t + cfg.queueTimeoutMs < n)
  | Ev.rejectedQT _ t n => decide (t + cfg.queueTimeoutMs < n)
  | Ev.dispatched _ _ t n => decide (n - t ≤ cfg.queueTimeoutMs)
  | _ => true

end DO

/-! Concrete inputs used by the witnesses and counterexamples below. -/

/-- A pool at capacity 2 holding one busy and one healthy idle session. -/
def stC2x : DO.DOState :=
  { sessions :=
      [{ id := "s1", browser := some { connected := true }, status := SessionStatus.busy,
         lastUsed := 0 },
       { id := "s2", browser := some { connected := true }, status := SessionStatus.idle,
         lastUsed := 0 }]
    queue := [], pending := [], processing := false, inflight := [] }

/-- Oracle for the C2 counterexample: the health probe succeeds. -/
def oC2x : DO.GSOracle := { probeOk := fun _ => true, launchOk := true, newId := "n1", now := 5 }

/-- A pool at capacity 2 where both sessions are busy. -/
def stC2w : DO.DOState :=
  { sessions :=
      [{ id := "s1", browser := some { connected := true }, status := SessionStatus.busy,
         lastUsed := 0 },
       { id := "s2", browser := some { connected := true }, status := SessionStatus.busy,
         lastUsed := 0 }]
    queue := [⟨"j9", "https://example.com", 3⟩], pending := ["j9"], processing := false,
    inflight := [] }

/-- Oracle for the C2 witness. -/
def oC2w : DO.IterOracle :=
  { now := 10, gs := { probeOk := fun _ => true, launchOk := true, newId := "n2", now := 10 } }

/-- Oracle for the C5 counterexample: empty pool, launch succeeds. -/
def oC5x : DO.GSOracle := { probeOk := fun _ => false, launchOk := true, newId := "n1", now := 7 }

/-- A pool with one busy session below capacity, for the C5 witness. -/
def stC5w : DO.DOState :=
  { sessions :=
      [{ id := "s1", browser := some { connected := true }, status := SessionStatus.busy,
         lastUsed := 0 }]
    queue := [], pending := [], processing := false, inflight := [] }

/-- Launch-success oracle for the C5 witness. -/
def oC5w : DO.GSOracle := { probeOk := fun _ => true, launchOk := true, newId := "n7", now := 11 }

/-- Launch-failure oracle for the C5 witness. -/
def oC5wf : DO.GSOracle := { probeOk := fun _ => true, launchOk := false, newId := "n7", now := 11 }

/-- A DO state with one busy session serving the inflight job `j1`. -/
def stC6x : DO.DOState :=
  { sessions :=
      [{ id := "s1", browser := some { connected := true }, status := SessionStatus.busy,
         lastUsed := 0 }]
    queue := [], pending := ["j1"], processing := false, inflight := [("j1", "s1")] }

/-- A legacy-path pool holding a terminating session, for the C6 witness. -/
def stC6w : DO.DOState :=
  { sessions :=
      [{ id := "s1", browser := some { connected := true }, status := SessionStatus.terminating,
         lastUsed := 0 }]
    queue := [], pending := [], processing := false, inflight := [] }

/-- A DO state whose dispatcher loop is mid-run (`processing = true`) with a
job waiting in the queue. -/
def stC8x : DO.DOState :=
  { sessions := [], queue := [⟨"j1", "https://example.com", 0⟩], pending := ["j1"],
    processing := false, inflight := [] }

/-- Same state but observed during a running loop iteration. -/
def stC8xBusy : DO.DOState := { stC8x with processing := true }

/-- Iteration oracle for the C8 counterexample. -/
def osC8x : List DO.IterOracle :=
  [{ now := 1, gs := { probeOk := fun _ => true, launchOk := true, newId := "n1", now := 1 } }]

/-- A queue-manager state with one queued job, for the C8 witness. -/
def stC8w : SQM.QState :=
  { queue := [⟨"j1", "https://example.com", 0⟩, ⟨"j2", "https://example.com", 1⟩],
    pending := ["j1", "j2"], processing := false, activeSessions := [] }

/-- A DO state with one cleanable (failed) session, for the C9
counterexample. -/
def stC9x : DO.DOState :=
  { sessions :=
      [{ id := "s1", browser := none, status := SessionStatus.failed, lastUsed := 0 }]
    queue := [], pending := [], processing := false, inflight := [] }

/-- A DO state with an empty pool and one fresh queued job, for the C9
counterexample's dispatcher half. -/
def stK9x : DO.DOState :=
  { sessions := [], queue := [⟨"j1", "https://example.com", 0⟩], pending := ["j1"],
    processing := false, inflight := [] }

/-- Iteration oracle whose launch fails, for the C9 counterexample. -/
def osK9x : List DO.IterOracle :=
  [{ now := 1, gs := { probeOk := fun _ => true, launchOk := false, newId := "n1", now := 1 } }]

/-- A pool of two restart-restored zombie sessions: metadata says
`busy` / `launching` but no browser handle exists. -/
def stC10w : DO.DOState :=
  { sessions :=
      [{ id := "s1", browser := none, status := SessionStatus.busy, lastUsed := 0 },
       { id := "s2", browser := none, status := SessionStatus.launching, lastUsed := 0 }]
    queue := [⟨"j1", "https://example.com", 1⟩], pending := ["j1"], processing := false,
    inflight := [] }

/-- Oracle for the C10 witness. -/
def oC10w : DO.GSOracle :=
  { probeOk := fun _ => true, launchOk := true, newId := "n1", now := 100000000 }

/-- Schedule for the C1 witness: enqueue three jobs, dispatch, finish one,
let the alarm sweep. -/
def lsC1w : List DO.Label :=
  [DO.Label.enq "j1" "https://a.example" 0,
   DO.Label.enq "j2" "https://b.example" 1,
   DO.Label.enq "j3" "https://c.example" 2,
   DO.Label.kick
     [{ now := 3, gs := { probeOk := fun _ => true, launchOk := true, newId := "n1", now := 3 } },
      { now := 4, gs := { probeOk := fun _ => true, launchOk := true, newId := "n2", now := 4 } },
      { now := 5, gs := { probeOk := fun _ => true, launchOk := true, newId := "n3", now := 5 } }],
   DO.Label.finish "j1" "n1" true 6,
   DO.Label.alarmTick 7]

/-- Schedule for the C4 witness: one job goes stale before the dispatcher
pass, a second stays fresh and is dispatched. -/
def lsC4w : List DO.Label :=
  [DO.Label.enq "j1" "https://a.example" 0,
   DO.Label.enq "j2" "https://b.example" 1900000,
   DO.Label.kick
     [{ now := 1900001,
        gs := { probeOk := fun _ => true, launchOk := true, newId := "n1", now := 1900001 } }]]

/-- Schedule for the C7 witness: enqueue two jobs, dispatch both, finish one
successfully and one with a failure, then a stale pass on an empty queue. -/
def lsC7w : List DO.Label :=
  [DO.Label.enq "j1" "https://a.example" 0,
   DO.Label.enq "j2" "https://b.example" 1,
   DO.Label.kick
     [{ now := 2, gs := { probeOk := fun _ => true, launchOk := true, newId := "n1", now := 2 } },
      { now := 3, gs := { probeOk := fun _ => true, launchOk := true, newId := "n2", now := 3 } }],
   DO.Label.finish "j1" "n1" true 4,
   DO.Label.finish "j2" "n2" false 5,
   DO.Label.kick
     [{ now := 6, gs := { probeOk := fun _ => true, launchOk := true, newId := "n4", now := 6 } }]]

/-! Helper lemmas: session-map sizes and the capacity bound. -/

theorem length_setSessionEntry_le (ss : List BrowserSession) (s : BrowserSession) :
    (setSessionEntry ss s).length ≤ ss.length + 1 := by
  induction ss with
  | nil => simp [setSessionEntry]
  | cons t rest ih =>
    simp only [setSessionEntry]
    split
    · simp
    · simpa using Nat.succ_le_succ ih

theorem length_updateSession (ss : List BrowserSession) (i : String)
    (f : BrowserSession → BrowserSession) :
    (updateSession ss i f).length = ss.length := by
  induction ss with
  | nil => simp [updateSession]
  | cons t rest ih =>
    simp only [updateSession]
    split
    · simp
    · simpa using ih

theorem length_removeSessionEntry_le (ss : List BrowserSession) (i : String) :
    (removeSessionEntry ss i).length ≤ ss.length := by
  induction ss with
  | nil => simp [removeSessionEntry]
  | cons t rest ih =>
    simp only [removeSessionEntry]
    split
    · exact Nat.le_succ_of_le (Nat.le_refl _)
    · simpa using Nat.succ_le_succ ih

theorem activeCount_le_length (ss : List BrowserSession) :
    activeCount ss ≤ ss.length := by
  simpa [activeCount] using List.length_filter_le (fun s => s.status.isActive) ss

theorem scanIdle_length_le (p : String → Bool) (now : Nat) (ss : List BrowserSession) :
    (DO.scanIdle p now ss).sessions.length ≤ ss.length := by
  induction ss with
  | nil => simp [DO.scanIdle]
  | cons s rest ih =>
    simp only [DO.scanIdle]
    split
    · split
      · simp
      · exact Nat.le_succ_of_le ih
    · simpa using Nat.succ_le_succ ih

theorem scanIdle_of_no_idle (p : String → Bool) (now : Nat) (ss : List BrowserSession)
    (h : ∀ s ∈ ss, DO.isIdleConnected s = false) :
    DO.scanIdle p now ss = ⟨ss, none, []⟩ := by
  induction ss with
  | nil => simp [DO.scanIdle]
  | cons s rest ih =>
    have hs : DO.isIdleConnected s = false := h s (by simp)
    have hrest : ∀ t ∈ rest, DO.isIdleConnected t = false := fun t ht => h t (by simp [ht])
    simp [DO.scanIdle, hs, ih hrest]

theorem getSession_sessions_le (cfg : Config) (o : DO.GSOracle) (st : DO.DOState)
    (h : st.sessions.length ≤ cfg.maxConcurrentBrowserSessions) :
    (DO.getSession cfg o st).st.sessions.length ≤ cfg.maxConcurrentBrowserSessions := by
  have hscan := scanIdle_length_le o.probeOk o.now st.sessions
  simp only [DO.getSession]
  cases hf : (DO.scanIdle o.probeOk o.now st.sessions).found with
  | some s =>
    simp only [hf]
    exact le_trans hscan h
  | none =>
    simp only [hf]
    split_ifs with h1 h2
    · exact le_trans hscan h
    · simpa [length_updateSession] using
        le_trans (length_setSessionEntry_le _ _) (Nat.succ_le_of_lt (not_le.mp h1))
    · exact le_trans (length_removeSessionEntry_le _ _)
        (le_trans (length_setSessionEntry_le _ _) (Nat.succ_le_of_lt (not_le.mp h1)))

theorem getSession_queue_eq (cfg : Config) (o : DO.GSOracle) (st : DO.DOState) :
    (DO.getSession cfg o st).st.queue = st.queue := by
  simp only [DO.getSession]
  cases hf : (DO.scanIdle o.probeOk o.now st.sessions).found with
  | some s => simp only [hf]
  | none =>
    simp only [hf]
    split_ifs <;> rfl

theorem getSession_pending_eq (cfg : Config) (o : DO.GSOracle) (st : DO.DOState) :
    (DO.getSession cfg o st).st.pending = st.pending := by
  simp only [DO.getSession]
  cases hf : (DO.scanIdle o.probeOk o.now st.sessions).found with
  | some s => simp only [hf]
  | none =>
    simp only [hf]
    split_ifs <;> rfl

theorem getSession_inflight_eq (cfg : Config) (o : DO.GSOracle) (st : DO.DOState) :
    (DO.getSession cfg o st).st.inflight = st.inflight := by
  simp only [DO.getSession]
  cases hf : (DO.scanIdle o.probeOk o.now st.sessions).found with
  | some s => simp only [hf]
  | none =>
    simp only [hf]
    split_ifs <;> rfl

/-! Helper lemmas: the stale-drop loop. -/

theorem dropStaleGo_queue_eq (cfg : Config) (now : Nat) :
    ∀ (q : List QueuedRequest) (p : List String),
      (DO.dropStaleGo cfg now q p).queue = q.dropWhile (DO.isStale cfg now) := by
  intro q
  induction q with
  | nil => intro p; simp [DO.dropStaleGo, List.dropWhile]
  | cons j rest ih =>
    intro p
    cases hs : DO.isStale cfg now j with
    | true => simp [DO.dropStaleGo, hs, List.dropWhile, ih]
    | false => simp [DO.dropStaleGo, hs, List.dropWhile]

theorem dropStaleGo_removedIds (cfg : Config) (now : Nat) :
    ∀ (q : List QueuedRequest) (p : List String),
      DO.removedIds (DO.dropStaleGo cfg now q p).evs =
        (q.takeWhile (DO.isStale cfg now)).map (fun j => j.id) := by
  intro q
  induction q with
  | nil => intro p; simp [DO.dropStaleGo, DO.removedIds, List.takeWhile]
  | cons j rest ih =>
    intro p
    cases hs : DO.isStale cfg now j with
    | true =>
      by_cases hc : j.id ∈ p
      · simp [DO.dropStaleGo, hs, hc, List.takeWhile, DO.removedIds, DO.Ev.removalId]
        simpa [DO.removedIds] using ih (p.erase j.id)
      · simp [DO.dropStaleGo, hs, hc, List.takeWhile, DO.removedIds, DO.Ev.removalId]
        simpa [DO.removedIds] using ih (p.erase j.id)
    | false => simp [DO.dropStaleGo, hs, List.takeWhile, DO.removedIds]

theorem dropStaleGo_enqueuedIds (cfg : Config) (now : Nat) :
    ∀ (q : List QueuedRequest) (p : List String),
      DO.enqueuedIds (DO.dropStaleGo cfg now q p).evs = [] := by
  intro q
  induction q with
  | nil => intro p; simp [DO.dropStaleGo, DO.enqueuedIds]
  | cons j rest ih =>
    intro p
    cases hs : DO.isStale cfg now j with
    | true =>
      by_cases hc : j.id ∈ p
      · simp [DO.dropStaleGo, hs, hc, DO.enqueuedIds, DO.Ev.enqId]
        simpa [DO.enqueuedIds] using ih (p.erase j.id)
      · simp [DO.dropStaleGo, hs, hc, DO.enqueuedIds, DO.Ev.enqId]
        simpa [DO.enqueuedIds] using ih (p.erase j.id)
    | false => simp [DO.dropStaleGo, hs, DO.enqueuedIds]

/-! Helper lemmas: shapes of the event lists of the pool operations. -/

theorem scanIdle_evs_shape (p : String → Bool) (now : Nat) :
    ∀ ss : List BrowserSession,
      ∀ ev ∈ (DO.scanIdle p now ss).evs, ∃ i, ev = DO.Ev.sessionRemoved i := by
  intro ss
  induction ss with
  | nil => simp [DO.scanIdle]
  | cons s rest ih =>
    intro ev hev
    simp only [DO.scanIdle] at hev
    by_cases h1 : DO.isIdleConnected s = true
    · by_cases h2 : p s.id = true
      · simp [h1, h2] at hev
      · simp only [h1, h2, if_true, if_false, Bool.false_eq_true, List.mem_cons] at hev
        rcases hev with h | h
        · exact ⟨s.id, h⟩
        · exact ih ev h
    · simp only [Bool.not_eq_true] at h1
      simp only [h1, Bool.false_eq_true, if_false] at hev
      exact ih ev hev

theorem getSession_evs_shape (cfg : Config) (o : DO.GSOracle) (st : DO.DOState) :
    ∀ ev ∈ (DO.getSession cfg o st).evs, ∃ i, ev = DO.Ev.sessionRemoved i := by
  intro ev hev
  simp only [DO.getSession] at hev
  cases hf : (DO.scanIdle o.probeOk o.now st.sessions).found with
  | some s =>
    simp only [hf] at hev
    exact scanIdle_evs_shape o.probeOk o.now st.sessions ev hev
  | none =>
    simp only [hf] at hev
    split_ifs at hev with h1 h2
    · exact scanIdle_evs_shape o.probeOk o.now st.sessions ev hev
    · exact scanIdle_evs_shape o.probeOk o.now st.sessions ev hev
    · simp only [List.mem_append, List.mem_singleton] at hev
      rcases hev with h | h
      · exact scanIdle_evs_shape o.probeOk o.now st.sessions ev h
      · exact ⟨o.newId, h⟩

theorem cleanupSession_evs_shape (cfg : Config) (now : Nat) (st : DO.DOState) (id : String)
    (force : Bool) :
    ∀ ev ∈ (DO.cleanupSession cfg now st id force).2, ∃ i, ev = DO.Ev.sessionRemoved i := by
  intro ev hev
  simp only [DO.cleanupSession] at hev
  cases hf : findSession st.sessions id with
  | none => simp [hf] at hev
  | some s =>
    simp only [hf] at hev
    split_ifs at hev
    · simp only [List.mem_singleton] at hev
      exact ⟨id, hev⟩
    · simp at hev

theorem alarmSweep_evs_shape (cfg : Config) (now : Nat) :
    ∀ (ids : List String) (st : DO.DOState),
      ∀ ev ∈ (DO.alarmSweep cfg now st ids).2, ∃ i, ev = DO.Ev.sessionRemoved i := by
  intro ids
  induction ids with
  | nil => simp [DO.alarmSweep]
  | cons id rest ih =>
    intro st ev hev
    simp only [DO.alarmSweep, List.mem_append] at hev
    rcases hev with h | h
    · exact cleanupSession_evs_shape cfg now st id false ev h
    · exact ih _ ev h

theorem cleanupSession_queue_eq (cfg : Config) (now : Nat) (st : DO.DOState) (id : String)
    (force : Bool) :
    (DO.cleanupSession cfg now st id force).1.queue = st.queue ∧
    (DO.cleanupSession cfg now st id force).1.pending = st.pending ∧
    (DO.cleanupSession cfg now st id force).1.inflight = st.inflight ∧
    (DO.cleanupSession cfg now st id force).1.processing = st.processing := by
  simp only [DO.cleanupSession]
  cases hf : findSession st.sessions id with
  | none => simp
  | some s =>
    dsimp only
    split_ifs <;> simp

theorem alarmSweep_queue_eq (cfg : Config) (now : Nat) :
    ∀ (ids : List String) (st : DO.DOState),
      (DO.alarmSweep cfg now st ids).1.queue = st.queue ∧
      (DO.alarmSweep cfg now st ids).1.pending = st.pending ∧
      (DO.alarmSweep cfg now st ids).1.inflight = st.inflight ∧
      (DO.alarmSweep cfg now st ids).1.processing = st.processing := by
  intro ids
  induction ids with
  | nil => simp [DO.alarmSweep]
  | cons id rest ih =>
    intro st
    have h1 := cleanupSession_queue_eq cfg now st id false
    have h2 := ih (DO.cleanupSession cfg now st id false).1
    simp only [DO.alarmSweep]
    exact ⟨h2.1.trans h1.1, (h2.2.1).trans h1.2.1, (h2.2.2.1).trans h1.2.2.1,
      (h2.2.2.2).trans h1.2.2.2⟩

/-! Helper lemmas: the dispatcher loop. -/

theorem head_dropWhile_false {α : Type} (p : α → Bool) :
    ∀ (l : List α) (j : α) (rest : List α), l.dropWhile p = j :: rest → p j = false := by
  intro l
  induction l with
  | nil => intro j rest h; simp [List.dropWhile] at h
  | cons a l ih =>
    intro j rest h
    by_cases ha : p a = true
    · rw [List.dropWhile_cons_of_pos ha] at h
      exact ih j rest h
    · rw [List.dropWhile_cons_of_neg ha] at h
      cases h
      simpa using ha

theorem kickLoop_sessions_le (cfg : Config) :
    ∀ (os : List DO.IterOracle) (st : DO.DOState),
      st.sessions.length ≤ cfg.maxConcurrentBrowserSessions →
      (DO.kickLoop cfg os st).st.sessions.length ≤ cfg.maxConcurrentBrowserSessions := by
  intro os
  induction os with
  | nil => intro st h; simpa [DO.kickLoop] using h
  | cons o os ih =>
    intro st h
    simp only [DO.kickLoop]
    set st1 : DO.DOState :=
      { st with
        queue := (DO.dropStaleGo cfg o.now st.queue st.pending).queue
        pending := (DO.dropStaleGo cfg o.now st.queue st.pending).pending } with hst1
    have h1 : st1.sessions.length ≤ cfg.maxConcurrentBrowserSessions := h
    by_cases hq : st1.queue.isEmpty
    · simpa [hq] using h1
    · simp only [hq, Bool.false_eq_true, if_false]
      have hg := getSession_sessions_le cfg o.gs st1 h1
      cases hr : (DO.getSession cfg o.gs st1).result with
      | error e =>
        cases e with
        | noAvailableSession => simpa [hr] using hg
        | launchFailed => simpa [hr] using hg
      | ok s =>
        simp only [hr]
        cases hq2 : (DO.getSession cfg o.gs st1).st.queue with
        | nil => simpa using hg
        | cons j rest =>
          apply ih
          simpa [DO.dispatchState, length_updateSession] using hg


theorem filterMap_none_of_shape {f : DO.Ev → Option String} (evs : List DO.Ev)
    (h : ∀ ev ∈ evs, ∃ i, ev = DO.Ev.sessionRemoved i)
    (hf : ∀ i, f (DO.Ev.sessionRemoved i) = none) :
    evs.filterMap f = [] := by
  rw [List.filterMap_eq_nil_iff]
  intro ev hev
  obtain ⟨i, rfl⟩ := h ev hev
  exact hf i

theorem filterMaps_of_sessionRemoved_shape (evs : List DO.Ev)
    (h : ∀ ev ∈ evs, ∃ i, ev = DO.Ev.sessionRemoved i) :
    DO.removedIds evs = [] ∧ DO.enqueuedIds evs = [] ∧
    evs.filterMap DO.Ev.settleId = [] ∧ evs.filterMap DO.Ev.remPendId = [] ∧
    DO.dispatchedIds evs = [] ∧ DO.staleIds evs = [] := by
  refine ⟨?_, ?_, ?_, ?_, ?_, ?_⟩
  · unfold DO.removedIds
    exact filterMap_none_of_shape evs h (fun i => rfl)
  · unfold DO.enqueuedIds
    exact filterMap_none_of_shape evs h (fun i => rfl)
  · exact filterMap_none_of_shape evs h (fun i => rfl)
  · exact filterMap_none_of_shape evs h (fun i => rfl)
  · unfold DO.dispatchedIds
    exact filterMap_none_of_shape evs h (fun i => rfl)
  · unfold DO.staleIds
    exact filterMap_none_of_shape evs h (fun i => rfl)

theorem kickLoop_conservation (cfg : Config) :
    ∀ (os : List DO.IterOracle) (st : DO.DOState),
      DO.removedIds (DO.kickLoop cfg os st).evs ++
          ((DO.kickLoop cfg os st).st.queue.map (fun j => j.id)) =
        st.queue.map (fun j => j.id) ∧
      DO.enqueuedIds (DO.kickLoop cfg os st).evs = [] := by
  intro os
  induction os with
  | nil => intro st; simp [DO.kickLoop, DO.removedIds, DO.enqueuedIds]
  | cons o os ih =>
    intro st
    simp only [DO.kickLoop]
    set dr := DO.dropStaleGo cfg o.now st.queue st.pending with hdr
    set st1 : DO.DOState := { st with queue := dr.queue, pending := dr.pending } with hst1
    have hdrq : dr.queue = st.queue.dropWhile (DO.isStale cfg o.now) :=
      dropStaleGo_queue_eq cfg o.now st.queue st.pending
    have hdrrem : DO.removedIds dr.evs =
        (st.queue.takeWhile (DO.isStale cfg o.now)).map (fun j => j.id) :=
      dropStaleGo_removedIds cfg o.now st.queue st.pending
    have hdrenq : DO.enqueuedIds dr.evs = [] :=
      dropStaleGo_enqueuedIds cfg o.now st.queue st.pending
    have hsplit : (st.queue.takeWhile (DO.isStale cfg o.now)).map (fun j => j.id) ++
        (st.queue.dropWhile (DO.isStale cfg o.now)).map (fun j => j.id) =
        st.queue.map (fun j => j.id) := by
      rw [← List.map_append, List.takeWhile_append_dropWhile]
    by_cases hq : st1.queue.isEmpty
    · constructor
      · simp only [hq, if_true]
        show DO.removedIds dr.evs ++ st1.queue.map (fun j => j.id) = _
        have h0 : st1.queue = dr.queue := rfl
        rw [h0, hdrrem, hdrq, hsplit]
      · simpa [hq] using hdrenq
    · simp only [hq, Bool.false_eq_true, if_false]
      have hgshape := getSession_evs_shape cfg o.gs st1
      have hgnil := filterMaps_of_sessionRemoved_shape _ hgshape
      have hgq := getSession_queue_eq cfg o.gs st1
      cases hr : (DO.getSession cfg o.gs st1).result with
      | error e =>
        cases e with
        | noAvailableSession =>
          simp only [hr]
          constructor
          · rw [DO.removedIds, List.filterMap_append, ← DO.removedIds, ← DO.removedIds,
              hgnil.1, List.append_nil, hgq, hdrrem]
            show _ ++ dr.queue.map (fun j => j.id) = _
            rw [hdrq, hsplit]
          · rw [DO.enqueuedIds, List.filterMap_append, ← DO.enqueuedIds, ← DO.enqueuedIds,
              hgnil.2.1, List.append_nil, hdrenq]
        | launchFailed =>
          simp only [hr]
          constructor
          · rw [DO.removedIds, List.filterMap_append, ← DO.removedIds, ← DO.removedIds,
              hgnil.1, List.append_nil, hgq, hdrrem]
            show _ ++ dr.queue.map (fun j => j.id) = _
            rw [hdrq, hsplit]
          · rw [DO.enqueuedIds, List.filterMap_append, ← DO.enqueuedIds, ← DO.enqueuedIds,
              hgnil.2.1, List.append_nil, hdrenq]
      | ok s =>
        simp only [hr]
        cases hq2 : (DO.getSession cfg o.gs st1).st.queue with
        | nil =>
          exfalso
          have h0 : st1.queue = [] := hgq.symm.trans hq2
          rw [h0] at hq
          simp at hq
        | cons j rest =>
          have hih := ih (DO.dispatchState (DO.getSession cfg o.gs st1).st s.id j rest)
          have hq3 : (DO.dispatchState (DO.getSession cfg o.gs st1).st s.id j rest).queue =
              rest := rfl
          have hqj : dr.queue = j :: rest := hgq.symm.trans hq2
          constructor
          · have hmain := hih.1
            rw [hq3] at hmain
            simp only [DO.removedIds] at hmain ⊢
            simp only [List.filterMap_append, List.filterMap_cons, DO.Ev.removalId,
              List.append_assoc, List.cons_append, List.append_nil]
            have hg0 : List.filterMap DO.Ev.removalId (DO.getSession cfg o.gs st1).evs = [] := by
              have := hgnil.1
              simpa [DO.removedIds] using this
            rw [hg0]
            simp only [List.nil_append]
            rw [hmain]
            have hDrm : List.filterMap DO.Ev.removalId dr.evs =
                (st.queue.takeWhile (DO.isStale cfg o.now)).map (fun j => j.id) := by
              simpa [DO.removedIds] using hdrrem
            rw [hDrm]
            have hcons : (j.id :: rest.map (fun j => j.id)) = dr.queue.map (fun j => j.id) := by
              rw [hqj]; rfl
            rw [hcons, hdrq, hsplit]
          · have hmain := hih.2
            simp only [DO.enqueuedIds] at hmain ⊢
            simp only [List.filterMap_append, List.filterMap_cons, DO.Ev.enqId,
              List.append_assoc, List.append_nil]
            have hg0 : List.filterMap DO.Ev.enqId (DO.getSession cfg o.gs st1).evs = [] := by
              have := hgnil.2.1
              simpa [DO.enqueuedIds] using this
            rw [hg0, hmain]
            have hd0 : List.filterMap DO.Ev.enqId dr.evs = [] := by
              simpa [DO.enqueuedIds] using hdrenq
            rw [hd0]
            simp

theorem finishStep_queue_eq (st : DO.DOState) (j sid : String) (ok : Bool) (now : Nat) :
    (DO.finishStep st j sid ok now).1.queue = st.queue := by
  simp only [DO.finishStep]
  split_ifs <;> rfl

theorem finishStep_evs_shape (st : DO.DOState) (j sid : String) (ok : Bool) (now : Nat) :
    (DO.finishStep st j sid ok now).2 = [] ∨
    (DO.finishStep st j sid ok now).2 =
      [if ok then DO.Ev.settledOk j else DO.Ev.settledErr j, DO.Ev.pendingRemoved j] := by
  simp only [DO.finishStep]
  split_ifs <;> simp

theorem finishStep_no_queue_evs (st : DO.DOState) (j sid : String) (ok : Bool) (now : Nat) :
    DO.removedIds (DO.finishStep st j sid ok now).2 = [] ∧
    DO.enqueuedIds (DO.finishStep st j sid ok now).2 = [] := by
  rcases finishStep_evs_shape st j sid ok now with h | h <;> rw [h]
  · exact ⟨rfl, rfl⟩
  · cases ok <;> exact ⟨rfl, rfl⟩

theorem alarmStep_no_queue_evs (cfg : Config) (now : Nat) (st : DO.DOState) :
    DO.removedIds (DO.alarmStep cfg now st).2 = [] ∧
    DO.enqueuedIds (DO.alarmStep cfg now st).2 = [] ∧
    (DO.alarmStep cfg now st).1.queue = st.queue := by
  have hs := alarmSweep_evs_shape cfg now (st.sessions.map (fun s => s.id)) st
  have hq := alarmSweep_queue_eq cfg now (st.sessions.map (fun s => s.id)) st
  simp only [DO.alarmStep]
  refine ⟨?_, ?_, hq.1⟩
  · rw [DO.removedIds, List.filterMap_append]
    have h1 : DO.removedIds (DO.alarmSweep cfg now st (st.sessions.map (fun s => s.id))).2 = [] :=
      (filterMaps_of_sessionRemoved_shape _ hs).1
    rw [DO.removedIds] at h1
    rw [h1]
    rfl
  · rw [DO.enqueuedIds, List.filterMap_append]
    have h1 : DO.enqueuedIds (DO.alarmSweep cfg now st (st.sessions.map (fun s => s.id))).2 = [] :=
      (filterMaps_of_sessionRemoved_shape _ hs).2.1
    rw [DO.enqueuedIds] at h1
    rw [h1]
    rfl

theorem step_conservation (cfg : Config) (st : DO.DOState) (l : DO.Label) :
    DO.removedIds (DO.step cfg st l).2 ++ ((DO.step cfg st l).1.queue.map (fun j => j.id)) =
      st.queue.map (fun j => j.id) ++ DO.enqueuedIds (DO.step cfg st l).2 := by
  cases l with
  | enq id url t =>
    simp [DO.step, DO.enqueueStep, DO.removedIds, DO.enqueuedIds, DO.Ev.removalId, DO.Ev.enqId]
  | kick os =>
    simp only [DO.step, DO.kickStep]
    by_cases hp : st.processing
    · simp [hp, DO.removedIds, DO.enqueuedIds]
    · simp only [hp, Bool.false_eq_true, if_false]
      have h := kickLoop_conservation cfg os { st with processing := true }
      rw [h.2]
      simpa using h.1
  | finish j sid ok t =>
    have h1 := finishStep_no_queue_evs st j sid ok t
    have h2 := finishStep_queue_eq st j sid ok t
    simp [DO.step, h1.1, h1.2, h2]
  | alarmTick t =>
    have h := alarmStep_no_queue_evs cfg t st
    simp [DO.step, h.1, h.2.1, h.2.2]
  | disconnect sid =>
    simp [DO.step, DO.disconnectStep, DO.removedIds, DO.enqueuedIds]

theorem run_conservation (cfg : Config) :
    ∀ (ls : List DO.Label) (st : DO.DOState),
      DO.removedIds (DO.run cfg st ls).2 ++ ((DO.run cfg st ls).1.queue.map (fun j => j.id)) =
        st.queue.map (fun j => j.id) ++ DO.enqueuedIds (DO.run cfg st ls).2 := by
  intro ls
  induction ls with
  | nil => intro st; simp [DO.run, DO.removedIds, DO.enqueuedIds]
  | cons l ls ih =>
    intro st
    simp only [DO.run]
    have h1 := step_conservation cfg st l
    have h2 := ih (DO.step cfg st l).1
    rw [DO.removedIds, List.filterMap_append, ← DO.removedIds, ← DO.removedIds,
      DO.enqueuedIds, List.filterMap_append, ← DO.enqueuedIds, ← DO.enqueuedIds]
    calc
      (DO.removedIds (DO.step cfg st l).2 ++ DO.removedIds (DO.run cfg (DO.step cfg st l).1 ls).2)
          ++ ((DO.run cfg (DO.step cfg st l).1 ls).1.queue.map (fun j => j.id))
        = DO.removedIds (DO.step cfg st l).2 ++
            (DO.removedIds (DO.run cfg (DO.step cfg st l).1 ls).2 ++
              ((DO.run cfg (DO.step cfg st l).1 ls).1.queue.map (fun j => j.id))) := by
          rw [List.append_assoc]
      _ = DO.removedIds (DO.step cfg st l).2 ++
            ((DO.step cfg st l).1.queue.map (fun j => j.id) ++
              DO.enqueuedIds (DO.run cfg (DO.step cfg st l).1 ls).2) := by rw [h2]
      _ = (DO.removedIds (DO.step cfg st l).2 ++
            (DO.step cfg st l).1.queue.map (fun j => j.id)) ++
              DO.enqueuedIds (DO.run cfg (DO.step cfg st l).1 ls).2 := by
          rw [List.append_assoc]
      _ = (st.queue.map (fun j => j.id) ++ DO.enqueuedIds (DO.step cfg st l).2) ++
            DO.enqueuedIds (DO.run cfg (DO.step cfg st l).1 ls).2 := by rw [h1]
      _ = st.queue.map (fun j => j.id) ++
            (DO.enqueuedIds (DO.step cfg st l).2 ++
              DO.enqueuedIds (DO.run cfg (DO.step cfg st l).1 ls).2) := by
          rw [List.append_assoc]

theorem cleanupSession_sessions_le (cfg : Config) (now : Nat) (st : DO.DOState) (id : String)
    (force : Bool) :
    (DO.cleanupSession cfg now st id force).1.sessions.length ≤ st.sessions.length := by
  simp only [DO.cleanupSession]
  cases hf : findSession st.sessions id with
  | none => simp
  | some s =>
    dsimp only
    split_ifs
    · exact length_removeSessionEntry_le _ _
    · exact Nat.le_refl _

theorem alarmSweep_sessions_le (cfg : Config) (now : Nat) :
    ∀ (ids : List String) (st : DO.DOState),
      (DO.alarmSweep cfg now st ids).1.sessions.length ≤ st.sessions.length := by
  intro ids
  induction ids with
  | nil => intro st; simp [DO.alarmSweep]
  | cons id rest ih =>
    intro st
    simp only [DO.alarmSweep]
    exact le_trans (ih _) (cleanupSession_sessions_le cfg now st id false)

theorem step_sessions_le (cfg : Config) (st : DO.DOState) (l : DO.Label)
    (h : st.sessions.length ≤ cfg.maxConcurrentBrowserSessions) :
    (DO.step cfg st l).1.sessions.length ≤ cfg.maxConcurrentBrowserSessions := by
  cases l with
  | enq id url t => simpa [DO.step, DO.enqueueStep] using h
  | kick os =>
    simp only [DO.step, DO.kickStep]
    by_cases hp : st.processing
    · simpa [hp] using h
    · simp only [hp, Bool.false_eq_true, if_false]
      exact kickLoop_sessions_le cfg os { st with processing := true } h
  | finish j sid ok t =>
    simp only [DO.step, DO.finishStep]
    split_ifs <;> simpa [length_updateSession] using h
  | alarmTick t =>
    simp only [DO.step, DO.alarmStep]
    exact le_trans (alarmSweep_sessions_le cfg t _ st) h
  | disconnect sid =>
    simpa [DO.step, DO.disconnectStep, length_updateSession] using h

theorem run_sessions_le (cfg : Config) :
    ∀ (ls : List DO.Label) (st : DO.DOState),
      st.sessions.length ≤ cfg.maxConcurrentBrowserSessions →
      (DO.run cfg st ls).1.sessions.length ≤ cfg.maxConcurrentBrowserSessions := by
  intro ls
  induction ls with
  | nil => intro st h; simpa [DO.run] using h
  | cons l ls ih =>
    intro st h
    simp only [DO.run]
    exact ih _ (step_sessions_le cfg st l h)

theorem filterMap_sublist_of_imp {f g : DO.Ev → Option String}
    (h : ∀ e x, f e = some x → g e = some x) :
    ∀ tr : List DO.Ev, List.Sublist (tr.filterMap f) (tr.filterMap g) := by
  intro tr
  induction tr with
  | nil => simp
  | cons e tr ih =>
    rw [List.filterMap_cons, List.filterMap_cons]
    cases hf : f e with
    | none =>
      cases hg : g e with
      | none => exact ih
      | some y => exact List.Sublist.cons y ih
    | some x =>
      rw [h e x hf]
      exact List.Sublist.cons₂ x ih

/-! Helper lemmas: staleness timing. -/

theorem dropStaleGo_timing (cfg : Config) (now : Nat) :
    ∀ (q : List QueuedRequest) (p : List String),
      ∀ ev ∈ (DO.dropStaleGo cfg now q p).evs, DO.evTimingOk cfg ev = true := by
  intro q
  induction q with
  | nil => intro p ev hev; simp [DO.dropStaleGo] at hev
  | cons j rest ih =>
    intro p ev hev
    cases hs : DO.isStale cfg now j with
    | false => simp [DO.dropStaleGo, hs] at hev
    | true =>
      have htime : j.enqueueTime + cfg.queueTimeoutMs < now := by
        have := of_decide_eq_true hs
        omega
      simp only [DO.dropStaleGo, hs, if_true] at hev
      rcases List.mem_append.mp hev with h | h
      · rcases List.mem_cons.mp h with h | h
        · subst h; simpa [DO.evTimingOk] using htime
        · by_cases hc : p.contains j.id = true
          · simp only [hc, if_true, List.mem_cons, List.mem_singleton] at h
            rcases h with h | h | h
            · subst h; simpa [DO.evTimingOk] using htime
            · subst h; rfl
            · simp at h
          · simp only [Bool.not_eq_true] at hc
            have hc2 : j.id ∉ p := by simpa using hc
            simp [hc2] at h
      · exact ih (p.erase j.id) ev h

theorem kickLoop_timing (cfg : Config) :
    ∀ (os : List DO.IterOracle) (st : DO.DOState),
      ∀ ev ∈ (DO.kickLoop cfg os st).evs, DO.evTimingOk cfg ev = true := by
  intro os
  induction os with
  | nil => intro st ev hev; simp [DO.kickLoop] at hev
  | cons o os ih =>
    intro st ev hev
    simp only [DO.kickLoop] at hev
    set dr := DO.dropStaleGo cfg o.now st.queue st.pending with hdr
    set st1 : DO.DOState := { st with queue := dr.queue, pending := dr.pending } with hst1
    have hdrq : dr.queue = st.queue.dropWhile (DO.isStale cfg o.now) :=
      dropStaleGo_queue_eq cfg o.now st.queue st.pending
    have hdrtime : ∀ e ∈ dr.evs, DO.evTimingOk cfg e = true :=
      dropStaleGo_timing cfg o.now st.queue st.pending
    have hgshape := getSession_evs_shape cfg o.gs st1
    have hgq := getSession_queue_eq cfg o.gs st1
    have hgtime : ∀ e ∈ (DO.getSession cfg o.gs st1).evs, DO.evTimingOk cfg e = true := by
      intro e he
      obtain ⟨i, rfl⟩ := hgshape e he
      rfl
    by_cases hq : st1.queue.isEmpty
    · simp only [hq, if_true] at hev
      exact hdrtime ev hev
    · simp only [hq, Bool.false_eq_true, if_false] at hev
      cases hr : (DO.getSession cfg o.gs st1).result with
      | error e2 =>
        cases e2 with
        | noAvailableSession =>
          simp only [hr] at hev
          rcases List.mem_append.mp hev with h | h
          · exact hdrtime ev h
          · exact hgtime ev h
        | launchFailed =>
          simp only [hr] at hev
          rcases List.mem_append.mp hev with h | h
          · exact hdrtime ev h
          · exact hgtime ev h
      | ok s =>
        simp only [hr] at hev
        rcases hq2 : (DO.getSession cfg o.gs st1).st.queue with _ | ⟨j, rest⟩ <;>
          rw [hq2] at hev
        · rcases List.mem_append.mp hev with h | h
          · exact hdrtime ev h
          · exact hgtime ev h
        · rcases List.mem_append.mp hev with h | h
          · rcases List.mem_append.mp h with h | h
            · exact hdrtime ev h
            · exact hgtime ev h
          · rcases List.mem_cons.mp h with h | h
            · subst h
              have hqj : dr.queue = j :: rest := hgq.symm.trans hq2
              have hjfresh : DO.isStale cfg o.now j = false := by
                apply head_dropWhile_false (DO.isStale cfg o.now) st.queue j rest
                rw [← hdrq, hqj]
              have hle : ¬ (cfg.queueTimeoutMs < o.now - j.enqueueTime) := by
                simpa [DO.isStale] using hjfresh
              simp only [DO.evTimingOk]
              simp only [decide_eq_true_eq]
              omega
            · exact ih _ ev h

theorem step_timing (cfg : Config) (st : DO.DOState) (l : DO.Label) :
    ∀ ev ∈ (DO.step cfg st l).2, DO.evTimingOk cfg ev = true := by
  cases l with
  | enq id url t =>
    intro ev hev
    simp only [DO.step, DO.enqueueStep, List.mem_singleton] at hev
    subst hev; rfl
  | kick os =>
    intro ev hev
    simp only [DO.step, DO.kickStep] at hev
    by_cases hp : st.processing
    · simp [hp] at hev
    · simp only [hp, Bool.false_eq_true, if_false] at hev
      exact kickLoop_timing cfg os { st with processing := true } ev hev
  | finish j sid ok t =>
    intro ev hev
    simp only [DO.step] at hev
    rcases finishStep_evs_shape st j sid ok t with h | h
    · rw [h] at hev; simp at hev
    · rw [h] at hev
      rcases List.mem_cons.mp hev with h2 | h2
      · subst h2; cases ok <;> rfl
      · rcases List.mem_singleton.mp h2 with rfl
        rfl
  | alarmTick t =>
    intro ev hev
    simp only [DO.step, DO.alarmStep] at hev
    rcases List.mem_append.mp hev with h | h
    · obtain ⟨i, rfl⟩ := alarmSweep_evs_shape cfg t (st.sessions.map (fun s => s.id)) st ev h
      rfl
    · rcases List.mem_singleton.mp h with rfl
      rfl
  | disconnect sid =>
    intro ev hev
    simp [DO.step] at hev

theorem run_timing (cfg : Config) :
    ∀ (ls : List DO.Label) (st : DO.DOState),
      ∀ ev ∈ (DO.run cfg st ls).2, DO.evTimingOk cfg ev = true := by
  intro ls
  induction ls with
  | nil => intro st ev hev; simp [DO.run] at hev
  | cons l ls ih =>
    intro st ev hev
    simp only [DO.run] at hev
    rcases List.mem_append.mp hev with h | h
    · exact step_timing cfg st l ev h
    · exact ih _ ev h

/-! Helper lemmas: per-id accounting of queue removals. -/

theorem removal_count_split :
    ∀ (tr : List DO.Ev) (id : String),
      (DO.removedIds tr).count id = (DO.staleIds tr).count id + (DO.dispatchedIds tr).count id := by
  intro tr id
  induction tr with
  | nil => simp [DO.removedIds, DO.staleIds, DO.dispatchedIds]
  | cons e tr ih =>
    simp only [DO.removedIds, DO.staleIds, DO.dispatchedIds, List.filterMap_cons] at ih ⊢
    cases e <;> simp only [DO.Ev.removalId, DO.Ev.staleId, DO.Ev.dispId] <;>
      first
        | exact ih
        | (rw [List.count_cons, List.count_cons, ih]; ring)

theorem enqueuedIds_run_eq (cfg : Config) :
    ∀ (ls : List DO.Label) (st : DO.DOState),
      DO.enqueuedIds (DO.run cfg st ls).2 = DO.enqLabelIds ls := by
  intro ls
  induction ls with
  | nil => intro st; simp [DO.run, DO.enqueuedIds, DO.enqLabelIds]
  | cons l ls ih =>
    intro st
    simp only [DO.run, DO.enqueuedIds, List.filterMap_append]
    rw [← DO.enqueuedIds, ← DO.enqueuedIds, ih]
    cases l with
    | enq id url t =>
      simp [DO.enqueueStep, DO.step, DO.enqueuedIds, DO.Ev.enqId, DO.enqLabelIds]
    | kick os =>
      simp only [DO.step, DO.kickStep]
      by_cases hp : st.processing
      · simp [hp, DO.enqueuedIds, DO.enqLabelIds]
      · simp only [hp, Bool.false_eq_true, if_false]
        rw [(kickLoop_conservation cfg os { st with processing := true }).2]
        simp [DO.enqLabelIds]
    | finish j sid ok t =>
      simp only [DO.step]
      rw [(finishStep_no_queue_evs st j sid ok t).2]
      simp [DO.enqLabelIds]
    | alarmTick t =>
      simp only [DO.step]
      rw [(alarmStep_no_queue_evs cfg t st).2.1]
      simp [DO.enqLabelIds]
    | disconnect sid =>
      simp [DO.step, DO.enqueuedIds, DO.enqLabelIds]

theorem mem_of_mem_dropWhile {α : Type} (p : α → Bool) :
    ∀ (l : List α) (x : α), x ∈ l.dropWhile p → x ∈ l := by
  intro l
  induction l with
  | nil => simp [List.dropWhile]
  | cons a l ih =>
    intro x hx
    by_cases ha : p a = true
    · rw [List.dropWhile_cons_of_pos ha] at hx
      exact List.mem_cons_of_mem a (ih x hx)
    · rw [List.dropWhile_cons_of_neg ha] at hx
      exact hx

theorem run_removedIds_nodup (cfg : Config) (ls : List DO.Label)
    (h : (DO.enqLabelIds ls).Nodup) :
    (DO.removedIds (DO.run cfg DO.initState ls).2).Nodup := by
  have hc := run_conservation cfg ls DO.initState
  rw [enqueuedIds_run_eq cfg ls DO.initState] at hc
  have h0 : DO.initState.queue.map (fun j => j.id) = [] := rfl
  rw [h0, List.nil_append] at hc
  have : (DO.removedIds (DO.run cfg DO.initState ls).2 ++
      ((DO.run cfg DO.initState ls).1.queue.map (fun j => j.id))).Nodup := by
    rw [hc]; exact h
  exact List.Nodup.of_append_left this

/-- In a queue whose enqueue timestamps are non-decreasing (monotone clock),
every entry surviving the stale-drop loop is fresh, so a stale job with a
live pending entry is rejected with the queue-timeout error and leaves the
queue on the very pass that observes it. -/
theorem dropStale_rejects (cfg : Config) (now : Nat) :
    ∀ (q : List QueuedRequest) (p : List String) (j : QueuedRequest),
      q.Pairwise (fun a b => a.enqueueTime ≤ b.enqueueTime) →
      (q.map (fun x => x.id)).Nodup →
      j ∈ q → DO.isStale cfg now j = true → j.id ∈ p →
      DO.Ev.rejectedQT j.id j.enqueueTime now ∈ (DO.dropStaleGo cfg now q p).evs ∧
      j ∉ (DO.dropStaleGo cfg now q p).queue := by
  intro q
  induction q with
  | nil => intro p j _ _ hj; simp at hj
  | cons a rest ih =>
    intro p j hsorted hnodup hj hstale hp
    have hsorted2 := (List.pairwise_cons.mp hsorted).2
    have hhead := (List.pairwise_cons.mp hsorted).1
    have hnodup2 : (rest.map (fun x => x.id)).Nodup := by
      simpa using hnodup.of_cons
    have hanotin : a.id ∉ rest.map (fun x => x.id) := by
      have := hnodup
      rw [List.map_cons, List.nodup_cons] at this
      exact this.1
    rcases List.mem_cons.mp hj with rfl | hjrest
    · -- the stale job is the head: it is shifted and rejected here
      simp only [DO.dropStaleGo, hstale, if_true]
      have hpc : p.contains j.id = true := by simpa using hp
      constructor
      · apply List.mem_append.mpr
        left
        apply List.mem_cons.mpr
        right
        simp [hp]
      · intro hmem
        rw [dropStaleGo_queue_eq] at hmem
        have : j ∈ rest := mem_of_mem_dropWhile _ rest j hmem
        exact hanotin (List.mem_map.mpr ⟨j, this, rfl⟩)
    · -- the stale job sits behind the head
      cases hsa : DO.isStale cfg now a with
      | true =>
        have hne : a.id ≠ j.id := by
          intro he
          exact hanotin (he ▸ List.mem_map.mpr ⟨j, hjrest, rfl⟩)
        have hp2 : j.id ∈ p.erase a.id := (List.mem_erase_of_ne (fun he => hne he.symm)).mpr hp
        have hrec := ih (p.erase a.id) j hsorted2 hnodup2 hjrest hstale hp2
        simp only [DO.dropStaleGo, hsa, if_true]
        constructor
        · exact List.mem_append.mpr (Or.inr hrec.1)
        · exact hrec.2
      | false =>
        -- a fresh head in front of a stale entry contradicts sortedness
        exfalso
        have h1 : a.enqueueTime ≤ j.enqueueTime := hhead j hjrest
        have h2 : cfg.queueTimeoutMs < now - j.enqueueTime := of_decide_eq_true hstale
        have h3 : ¬ (cfg.queueTimeoutMs < now - a.enqueueTime) := by
          simpa [DO.isStale] using hsa
        omega

theorem sqm_removeStaleJobs_error_class (queueTimeout now : Nat) :
    ∀ (q : List QueuedRequest) (p : List String),
      ∀ ev ∈ (SQM.removeStaleJobs queueTimeout now q p).2.2,
        ∃ id, ev = SQM.SEv.rejected id (SQM.SErr.queueTimeoutError "Job timed out in queue") := by
  intro q
  induction q with
  | nil => intro p ev hev; simp [SQM.removeStaleJobs] at hev
  | cons j rest ih =>
    intro p ev hev
    cases hs : SQM.isJobStale queueTimeout now j with
    | false => simp [SQM.removeStaleJobs, hs] at hev
    | true =>
      simp only [SQM.removeStaleJobs, hs, if_true] at hev
      rcases List.mem_append.mp hev with h | h
      · by_cases hc : p.contains j.id = true
        · simp only [hc, if_true, List.mem_singleton] at h
          exact ⟨j.id, h⟩
        · simp only [Bool.not_eq_true] at hc
          have hc2 : j.id ∉ p := by simpa using hc
          simp [hc2] at h
      · exact ih (p.erase j.id) ev h

/-! Helper lemmas: settle-once accounting for the pending-result table. -/

theorem pairedSettles_append :
    ∀ a b : List DO.Ev, DO.pairedSettles a = true → DO.pairedSettles b = true →
      DO.pairedSettles (a ++ b) = true
  | [], b, _, hb => by simpa
  | e :: rest, b, ha, hb => by
    cases hse : DO.Ev.settleId e with
    | none =>
      have ha2 : DO.pairedSettles rest = true := by
        simpa [DO.pairedSettles, hse] using ha
      have := pairedSettles_append rest b ha2 hb
      simpa [DO.pairedSettles, hse] using this
    | some j =>
      cases rest with
      | nil => simp [DO.pairedSettles, hse] at ha
      | cons r2 rest2 =>
        cases r2 with
        | pendingRemoved j2 =>
          simp only [DO.pairedSettles, hse, Bool.and_eq_true, decide_eq_true_eq] at ha
          have := pairedSettles_append rest2 b ha.2 hb
          simp only [List.cons_append, DO.pairedSettles, hse, Bool.and_eq_true,
            decide_eq_true_eq]
          exact ⟨ha.1, this⟩
        | enqueued j2 t => simp [DO.pairedSettles, hse] at ha
        | staleDropped j2 t n => simp [DO.pairedSettles, hse] at ha
        | rejectedQT j2 t n => simp [DO.pairedSettles, hse] at ha
        | dispatched j2 s t n => simp [DO.pairedSettles, hse] at ha
        | settledOk j2 => simp [DO.pairedSettles, hse] at ha
        | settledErr j2 => simp [DO.pairedSettles, hse] at ha
        | sessionRemoved i => simp [DO.pairedSettles, hse] at ha
        | alarmRearmed t => simp [DO.pairedSettles, hse] at ha

theorem pairedSettles_of_no_settles :
    ∀ evs : List DO.Ev, (∀ ev ∈ evs, DO.Ev.settleId ev = none) →
      DO.pairedSettles evs = true := by
  intro evs
  induction evs with
  | nil => intro _; rfl
  | cons e rest ih =>
    intro h
    have he : DO.Ev.settleId e = none := h e (by simp)
    have hr := ih (fun ev hev => h ev (by simp [hev]))
    simp [DO.pairedSettles, he, hr]

theorem dropStaleGo_paired (cfg : Config) (now : Nat) :
    ∀ (q : List QueuedRequest) (p : List String),
      DO.pairedSettles (DO.dropStaleGo cfg now q p).evs = true := by
  intro q
  induction q with
  | nil => intro p; rfl
  | cons j rest ih =>
    intro p
    cases hs : DO.isStale cfg now j with
    | false => simp [DO.dropStaleGo, hs, DO.pairedSettles]
    | true =>
      simp only [DO.dropStaleGo, hs, if_true]
      by_cases hc : p.contains j.id = true
      · simp only [hc, if_true]
        apply pairedSettles_append
        · simp [DO.pairedSettles, DO.Ev.settleId]
        · exact ih (p.erase j.id)
      · simp only [Bool.not_eq_true] at hc
        simp only [hc]
        apply pairedSettles_append
        · simp [DO.pairedSettles, DO.Ev.settleId]
        · exact ih (p.erase j.id)

theorem dropStaleGo_settle_eq_remPend (cfg : Config) (now : Nat) :
    ∀ (q : List QueuedRequest) (p : List String),
      (DO.dropStaleGo cfg now q p).evs.filterMap DO.Ev.settleId =
        (DO.dropStaleGo cfg now q p).evs.filterMap DO.Ev.remPendId := by
  intro q
  induction q with
  | nil => intro p; rfl
  | cons j rest ih =>
    intro p
    cases hs : DO.isStale cfg now j with
    | false => simp [DO.dropStaleGo, hs]
    | true =>
      by_cases hc : p.contains j.id = true
      · simp only [DO.dropStaleGo, hs, if_true, hc, List.cons_append, List.filterMap_cons,
          List.filterMap_append, DO.Ev.settleId, DO.Ev.remPendId]
        rw [ih (p.erase j.id)]
        simp
      · simp only [Bool.not_eq_true] at hc
        simp only [DO.dropStaleGo, hs, if_true, hc, List.cons_append, List.filterMap_cons,
          List.filterMap_append, DO.Ev.settleId, DO.Ev.remPendId]
        rw [ih (p.erase j.id)]
        simp

theorem dropStaleGo_pending_count (cfg : Config) (now : Nat) :
    ∀ (q : List QueuedRequest) (p : List String) (id : String),
      ((DO.dropStaleGo cfg now q p).evs.filterMap DO.Ev.settleId).count id +
        (DO.dropStaleGo cfg now q p).pending.count id = p.count id := by
  intro q
  induction q with
  | nil => intro p id; simp [DO.dropStaleGo]
  | cons j rest ih =>
    intro p id
    cases hs : DO.isStale cfg now j with
    | false => simp [DO.dropStaleGo, hs]
    | true =>
      by_cases hc : p.contains j.id = true
      · have hmem : j.id ∈ p := by simpa using hc
        simp only [DO.dropStaleGo, hs, if_true, hc, List.cons_append, List.filterMap_cons,
          List.filterMap_append, DO.Ev.settleId, List.filterMap_nil, List.nil_append]
        have hrec := ih (p.erase j.id) id
        by_cases hid : id = j.id
        · subst hid
          rw [List.count_cons_self]
          have hcount : (p.erase j.id).count j.id = p.count j.id - 1 :=
            List.count_erase_self j.id p
          have hpos : 0 < p.count j.id := List.count_pos_iff.mpr hmem
          rw [hcount] at hrec
          omega
        · rw [List.count_cons_of_ne hid]
          have hcount : (p.erase j.id).count id = p.count id :=
            List.count_erase_of_ne hid p
          rw [hcount] at hrec
          exact hrec
      · simp only [Bool.not_eq_true] at hc
        have hnmem : j.id ∉ p := by simpa using hc
        simp only [DO.dropStaleGo, hs, if_true, hc, List.cons_append, List.filterMap_cons,
          List.filterMap_append, DO.Ev.settleId]
        have herase : p.erase j.id = p := List.erase_of_not_mem hnmem
        rw [herase]
        simpa using ih p id

theorem kickLoop_settle_props (cfg : Config) :
    ∀ (os : List DO.IterOracle) (st : DO.DOState),
      ((DO.kickLoop cfg os st).evs.filterMap DO.Ev.settleId =
        (DO.kickLoop cfg os st).evs.filterMap DO.Ev.remPendId) ∧
      (DO.pairedSettles (DO.kickLoop cfg os st).evs = true) ∧
      (∀ id, ((DO.kickLoop cfg os st).evs.filterMap DO.Ev.settleId).count id +
          (DO.kickLoop cfg os st).st.pending.count id = st.pending.count id) := by
  intro os
  induction os with
  | nil =>
    intro st
    refine ⟨rfl, rfl, fun id => by simp [DO.kickLoop]⟩
  | cons o os ih =>
    intro st
    simp only [DO.kickLoop]
    set dr := DO.dropStaleGo cfg o.now st.queue st.pending with hdr
    set st1 : DO.DOState := { st with queue := dr.queue, pending := dr.pending } with hst1
    have hdrse : dr.evs.filterMap DO.Ev.settleId = dr.evs.filterMap DO.Ev.remPendId :=
      dropStaleGo_settle_eq_remPend cfg o.now st.queue st.pending
    have hdrp : DO.pairedSettles dr.evs = true := dropStaleGo_paired cfg o.now st.queue st.pending
    have hdrc : ∀ id, (dr.evs.filterMap DO.Ev.settleId).count id + dr.pending.count id =
        st.pending.count id := dropStaleGo_pending_count cfg o.now st.queue st.pending
    have hgshape := getSession_evs_shape cfg o.gs st1
    have hgnil := filterMaps_of_sessionRemoved_shape _ hgshape
    have hgse : (DO.getSession cfg o.gs st1).evs.filterMap DO.Ev.settleId = [] := hgnil.2.2.1
    have hgre : (DO.getSession cfg o.gs st1).evs.filterMap DO.Ev.remPendId = [] :=
      hgnil.2.2.2.1
    have hgp : DO.pairedSettles (DO.getSession cfg o.gs st1).evs = true := by
      apply pairedSettles_of_no_settles
      intro ev hev
      obtain ⟨i, rfl⟩ := hgshape ev hev
      rfl
    have hgpend := getSession_pending_eq cfg o.gs st1
    by_cases hq : st1.queue.isEmpty
    · simp only [hq, if_true]
      exact ⟨hdrse, hdrp, hdrc⟩
    · simp only [hq, Bool.false_eq_true, if_false]
      cases hr : (DO.getSession cfg o.gs st1).result with
      | error e2 =>
        have hbundle : ∀ (z : DO.DOState × List DO.Ev),
            z.1 = (DO.getSession cfg o.gs st1).st → z.2 = dr.evs ++ (DO.getSession cfg o.gs st1).evs →
            (z.2.filterMap DO.Ev.settleId = z.2.filterMap DO.Ev.remPendId) ∧
            (DO.pairedSettles z.2 = true) ∧
            (∀ id, (z.2.filterMap DO.Ev.settleId).count id + z.1.pending.count id =
              st.pending.count id) := by
          intro z h1 h2
          refine ⟨?_, ?_, ?_⟩
          · rw [h2, List.filterMap_append, List.filterMap_append, hdrse, hgse, hgre]
          · rw [h2]; exact pairedSettles_append _ _ hdrp hgp
          · intro id
            rw [h2, h1, List.filterMap_append, hgse, List.append_nil, hgpend]
            exact hdrc id
        cases e2 with
        | noAvailableSession =>
          simp only [hr]
          exact hbundle ((DO.getSession cfg o.gs st1).st, dr.evs ++ (DO.getSession cfg o.gs st1).evs) rfl rfl
        | launchFailed =>
          simp only [hr]
          exact hbundle ((DO.getSession cfg o.gs st1).st, dr.evs ++ (DO.getSession cfg o.gs st1).evs) rfl rfl
      | ok s =>
        simp only [hr]
        cases hq2 : (DO.getSession cfg o.gs st1).st.queue with
        | nil =>
          refine ⟨?_, ?_, ?_⟩
          · rw [List.filterMap_append, List.filterMap_append, hdrse, hgse, hgre]
          · exact pairedSettles_append _ _ hdrp hgp
          · intro id
            rw [List.filterMap_append, hgse, List.append_nil, hgpend]
            exact hdrc id
        | cons j rest =>
          have hrec := ih (DO.dispatchState (DO.getSession cfg o.gs st1).st s.id j rest)
          have hpend3 : (DO.dispatchState (DO.getSession cfg o.gs st1).st s.id j rest).pending =
              dr.pending := hgpend
          refine ⟨?_, ?_, ?_⟩
          · simp only [List.filterMap_append, List.filterMap_cons, DO.Ev.settleId,
              DO.Ev.remPendId, hdrse, hgse, hgre, hrec.1]
          · apply pairedSettles_append _ _ (pairedSettles_append _ _ hdrp hgp)
            have : DO.Ev.settleId (DO.Ev.dispatched j.id s.id j.enqueueTime o.now) = none := rfl
            simpa [DO.pairedSettles, this] using hrec.2.1
          · intro id
            simp only [List.filterMap_append, List.filterMap_cons, DO.Ev.settleId,
              List.filterMap_nil, hgse, List.append_nil, List.count_append]
            have h3 := hrec.2.2 id
            rw [hpend3] at h3
            have h1 := hdrc id
            omega

theorem finishStep_settle_props (st : DO.DOState) (j sid : String) (ok : Bool) (now : Nat) :
    ((DO.finishStep st j sid ok now).2.filterMap DO.Ev.settleId =
      (DO.finishStep st j sid ok now).2.filterMap DO.Ev.remPendId) ∧
    (DO.pairedSettles (DO.finishStep st j sid ok now).2 = true) ∧
    (∀ id, ((DO.finishStep st j sid ok now).2.filterMap DO.Ev.settleId).count id +
        (DO.finishStep st j sid ok now).1.pending.count id = st.pending.count id) := by
  simp only [DO.finishStep]
  by_cases hin : st.inflight.contains (j, sid) = true
  · simp only [hin, if_true]
    by_cases hc : st.pending.contains j = true
    · have hmem : j ∈ st.pending := by simpa using hc
      simp only [hc, if_true]
      refine ⟨?_, ?_, ?_⟩
      · cases ok <;> rfl
      · cases ok <;> simp [DO.pairedSettles, DO.Ev.settleId]
      · intro id
        have hsettle : (([if ok = true then DO.Ev.settledOk j else DO.Ev.settledErr j,
            DO.Ev.pendingRemoved j] : List DO.Ev).filterMap DO.Ev.settleId) = [j] := by
          cases ok <;> rfl
        rw [hsettle]
        by_cases hid : id = j
        · subst hid
          have hone : List.count id [id] = 1 := by
            rw [List.count_singleton']
            simp
          have hcount : (st.pending.erase id).count id = st.pending.count id - 1 :=
            List.count_erase_self id st.pending
          have hpos : 0 < st.pending.count id := List.count_pos_iff.mpr hmem
          rw [hone, hcount]
          omega
        · have hzero : List.count id [j] = 0 := by
            rw [List.count_singleton']
            simp only [ite_eq_right_iff]
            intro h
            exact absurd h.symm hid
          have hcount : (st.pending.erase j).count id = st.pending.count id :=
            List.count_erase_of_ne hid st.pending
          rw [hzero, hcount]
          omega
    · simp only [Bool.not_eq_true] at hc
      have hnmem : j ∉ st.pending := by simpa using hc
      simp only [hc]
      refine ⟨rfl, rfl, ?_⟩
      intro id
      have herase : st.pending.erase j = st.pending := List.erase_of_not_mem hnmem
      simp [herase]
  · simp only [Bool.not_eq_true] at hin
    simp only [hin]
    exact ⟨rfl, rfl, fun id => by simp⟩

theorem step_settle_props (cfg : Config) (st : DO.DOState) (l : DO.Label) :
    ((DO.step cfg st l).2.filterMap DO.Ev.settleId =
      (DO.step cfg st l).2.filterMap DO.Ev.remPendId) ∧
    (DO.pairedSettles (DO.step cfg st l).2 = true) ∧
    (∀ id, ((DO.step cfg st l).2.filterMap DO.Ev.settleId).count id +
        (DO.step cfg st l).1.pending.count id ≤
      st.pending.count id + (DO.enqueuedIds (DO.step cfg st l).2).count id) := by
  cases l with
  | enq id url t =>
    refine ⟨rfl, rfl, ?_⟩
    intro i
    simp only [DO.step, DO.enqueueStep, DO.enqueuedIds, List.filterMap_cons, List.filterMap_nil,
      DO.Ev.enqId, DO.Ev.settleId]
    by_cases hc : st.pending.contains id = true
    · simp only [hc, if_true]
      simp
    · simp only [hc, Bool.false_eq_true, if_false]
      by_cases hi : i = id
      · subst hi
        simp [List.count_append]
      · simp [List.count_append, List.count_singleton, hi]
  | kick os =>
    simp only [DO.step, DO.kickStep]
    by_cases hp : st.processing
    · simp only [hp, if_true]
      exact ⟨rfl, rfl, fun id => by simp⟩
    · simp only [hp, Bool.false_eq_true, if_false]
      have h := kickLoop_settle_props cfg os { st with processing := true }
      refine ⟨h.1, h.2.1, ?_⟩
      intro id
      have := h.2.2 id
      simp only [this]
      simp
  | finish j sid ok t =>
    simp only [DO.step]
    have h := finishStep_settle_props st j sid ok t
    refine ⟨h.1, h.2.1, ?_⟩
    intro id
    have := h.2.2 id
    omega
  | alarmTick t =>
    simp only [DO.step, DO.alarmStep]
    have hshape := alarmSweep_evs_shape cfg t (st.sessions.map (fun s => s.id)) st
    have hpend := (alarmSweep_queue_eq cfg t (st.sessions.map (fun s => s.id)) st).2.1
    have hshape2 : ∀ ev ∈ (DO.alarmSweep cfg t st (st.sessions.map (fun s => s.id))).2 ++
        [DO.Ev.alarmRearmed (t + cfg.alarmIntervalMs)],
        DO.Ev.settleId ev = none ∧ DO.Ev.remPendId ev = none := by
      intro ev hev
      rcases List.mem_append.mp hev with h | h
      · obtain ⟨i, rfl⟩ := hshape ev h
        exact ⟨rfl, rfl⟩
      · rcases List.mem_singleton.mp h with rfl
        exact ⟨rfl, rfl⟩
    have hse : ((DO.alarmSweep cfg t st (st.sessions.map (fun s => s.id))).2 ++
        [DO.Ev.alarmRearmed (t + cfg.alarmIntervalMs)]).filterMap DO.Ev.settleId = [] := by
      rw [List.filterMap_eq_nil_iff]
      exact fun ev hev => (hshape2 ev hev).1
    have hre : ((DO.alarmSweep cfg t st (st.sessions.map (fun s => s.id))).2 ++
        [DO.Ev.alarmRearmed (t + cfg.alarmIntervalMs)]).filterMap DO.Ev.remPendId = [] := by
      rw [List.filterMap_eq_nil_iff]
      exact fun ev hev => (hshape2 ev hev).2
    refine ⟨by rw [hse, hre], ?_, ?_⟩
    · exact pairedSettles_of_no_settles _ (fun ev hev => (hshape2 ev hev).1)
    · intro id
      rw [hse, hpend]
      simp
  | disconnect sid =>
    exact ⟨rfl, rfl, fun id => by simp [DO.step, DO.disconnectStep]⟩

theorem run_settle_props (cfg : Config) :
    ∀ (ls : List DO.Label) (st : DO.DOState),
      ((DO.run cfg st ls).2.filterMap DO.Ev.settleId =
        (DO.run cfg st ls).2.filterMap DO.Ev.remPendId) ∧
      (DO.pairedSettles (DO.run cfg st ls).2 = true) ∧
      (∀ id, ((DO.run cfg st ls).2.filterMap DO.Ev.settleId).count id +
          (DO.run cfg st ls).1.pending.count id ≤
        st.pending.count id + (DO.enqueuedIds (DO.run cfg st ls).2).count id) := by
  intro ls
  induction ls with
  | nil =>
    intro st
    exact ⟨rfl, rfl, fun id => by simp [DO.run, DO.enqueuedIds]⟩
  | cons l ls ih =>
    intro st
    simp only [DO.run]
    have h1 := step_settle_props cfg st l
    have h2 := ih (DO.step cfg st l).1
    refine ⟨?_, ?_, ?_⟩
    · rw [List.filterMap_append, List.filterMap_append, h1.1, h2.1]
    · exact pairedSettles_append _ _ h1.2.1 h2.2.1
    · intro id
      have ha := h1.2.2 id
      have hb := h2.2.2 id
      simp only [List.filterMap_append, List.count_append, DO.enqueuedIds] at ha hb ⊢
      omega

/-! Helper lemmas: the queue-manager variant and the remaining claims. -/

theorem sqm_processQueue_active_le (maxConc queueTimeout now : Nat) (newSessionId : String)
    (st : SQM.QState) (h : st.activeSessions.length ≤ maxConc) :
    (SQM.processQueue maxConc queueTimeout now newSessionId st).1.activeSessions.length ≤
      maxConc := by
  simp only [SQM.processQueue]
  by_cases hp : st.processing
  · simpa [hp] using h
  · simp only [hp, Bool.false_eq_true, if_false]
    by_cases hq : (SQM.removeStaleJobs queueTimeout now st.queue st.pending).1.isEmpty
    · simpa [hq] using h
    · simp only [hq, Bool.false_eq_true, if_false]
      by_cases hcan : SQM.canProcessNewJob maxConc
          { st with
            processing := true
            queue := (SQM.removeStaleJobs queueTimeout now st.queue st.pending).1
            pending := (SQM.removeStaleJobs queueTimeout now st.queue st.pending).2.1 } = true
      · simp only [hcan, Bool.not_true, Bool.false_eq_true, if_false]
        have hlt : st.activeSessions.length < maxConc := by
          simpa [SQM.canProcessNewJob] using hcan
        cases hq2 : (SQM.removeStaleJobs queueTimeout now st.queue st.pending).1 with
        | nil => simpa using h
        | cons j rest => simpa using Nat.succ_le_of_lt hlt
      · simp only [Bool.not_eq_true] at hcan
        simpa [hcan] using h

theorem findSession_mem : ∀ (ss : List BrowserSession) (i : String) (s : BrowserSession),
    findSession ss i = some s → s ∈ ss := by
  intro ss
  induction ss with
  | nil => intro i s h; simp [findSession] at h
  | cons t rest ih =>
    intro i s h
    simp only [findSession] at h
    split_ifs at h
    · cases h; simp
    · exact List.mem_cons_of_mem t (ih i s h)

theorem findSession_updateSession_self
    (f : BrowserSession → BrowserSession) (hf : ∀ s, (f s).id = s.id) :
    ∀ (ss : List BrowserSession) (i : String),
      findSession (updateSession ss i f) i = (findSession ss i).map f := by
  intro ss
  induction ss with
  | nil => intro i; simp [findSession, updateSession]
  | cons t rest ih =>
    intro i
    simp only [updateSession]
    by_cases ht : t.id = i
    · simp [findSession, ht, hf]
    · simp only [if_neg ht, findSession, if_neg ht]
      exact ih i

theorem updateSession_ids (f : BrowserSession → BrowserSession) (hf : ∀ s, (f s).id = s.id) :
    ∀ (ss : List BrowserSession) (i : String),
      (updateSession ss i f).map (fun s => s.id) = ss.map (fun s => s.id) := by
  intro ss
  induction ss with
  | nil => intro i; simp [updateSession]
  | cons t rest ih =>
    intro i
    simp only [updateSession]
    by_cases ht : t.id = i
    · simp [ht, hf]
    · simp [ht, ih]

theorem findSession_eq_none_of_not_mem :
    ∀ (ss : List BrowserSession) (i : String),
      i ∉ ss.map (fun s => s.id) → findSession ss i = none := by
  intro ss
  induction ss with
  | nil => intro i _; rfl
  | cons t rest ih =>
    intro i h
    simp only [List.map_cons, List.mem_cons] at h
    push_neg at h
    have ht : ¬ (t.id = i) := fun he => h.1 he.symm
    simp only [findSession, if_neg ht]
    exact ih i h.2

theorem findSession_removeSessionEntry_self :
    ∀ (ss : List BrowserSession) (i : String),
      (ss.map (fun s => s.id)).Nodup →
      findSession (removeSessionEntry ss i) i = none := by
  intro ss
  induction ss with
  | nil => intro i _; rfl
  | cons t rest ih =>
    intro i hnd
    simp only [List.map_cons, List.nodup_cons] at hnd
    simp only [removeSessionEntry]
    by_cases ht : t.id = i
    · subst ht
      simp only [if_pos rfl]
      exact findSession_eq_none_of_not_mem rest t.id hnd.1
    · simp only [if_neg ht, findSession, if_neg ht]
      exact ih i hnd.2

theorem setSessionEntry_of_fresh :
    ∀ (ss : List BrowserSession) (s : BrowserSession),
      s.id ∉ ss.map (fun t => t.id) → setSessionEntry ss s = ss ++ [s] := by
  intro ss
  induction ss with
  | nil => intro s _; rfl
  | cons t rest ih =>
    intro s h
    simp only [List.map_cons, List.mem_cons] at h
    push_neg at h
    have ht : ¬ (t.id = s.id) := fun he => h.1 he.symm
    simp only [setSessionEntry, if_neg ht, List.cons_append]
    rw [ih s h.2]

theorem updateSession_append_fresh :
    ∀ (ss : List BrowserSession) (t : BrowserSession) (i : String)
      (f : BrowserSession → BrowserSession),
      i ∉ ss.map (fun s => s.id) → t.id = i →
      updateSession (ss ++ [t]) i f = ss ++ [f t] := by
  intro ss
  induction ss with
  | nil => intro t i f _ ht; simp [updateSession, ht]
  | cons a rest ih =>
    intro t i f h ht
    simp only [List.map_cons, List.mem_cons] at h
    push_neg at h
    have ha : ¬ (a.id = i) := fun he => h.1 he.symm
    simp only [List.cons_append, updateSession, if_neg ha, List.append_eq]
    rw [ih t i f h.2 ht]

theorem removeSessionEntry_append_fresh :
    ∀ (ss : List BrowserSession) (t : BrowserSession) (i : String),
      i ∉ ss.map (fun s => s.id) → t.id = i →
      removeSessionEntry (ss ++ [t]) i = ss := by
  intro ss
  induction ss with
  | nil => intro t i _ ht; simp [removeSessionEntry, ht]
  | cons a rest ih =>
    intro t i h ht
    simp only [List.map_cons, List.mem_cons] at h
    push_neg at h
    have ha : ¬ (a.id = i) := fun he => h.1 he.symm
    simp only [List.cons_append, removeSessionEntry, if_neg ha, List.append_eq]
    rw [ih t i h.2 ht]

theorem getSession_backpressure (cfg : Config) (o : DO.GSOracle) (st : DO.DOState)
    (hno : ∀ s ∈ st.sessions, DO.isIdleConnected s = false)
    (hfull : cfg.maxConcurrentBrowserSessions ≤ st.sessions.length) :
    DO.getSession cfg o st = ⟨st, [], Except.error DO.AcquireErr.noAvailableSession⟩ := by
  have hscan := scanIdle_of_no_idle o.probeOk o.now st.sessions hno
  simp only [DO.getSession, hscan, if_pos hfull]

theorem getSession_launch_ok (cfg : Config) (o : DO.GSOracle) (st : DO.DOState)
    (hno : ∀ s ∈ st.sessions, DO.isIdleConnected s = false)
    (hlt : st.sessions.length < cfg.maxConcurrentBrowserSessions)
    (hfresh : o.newId ∉ st.sessions.map (fun s => s.id))
    (hok : o.launchOk = true) :
    DO.getSession cfg o st =
      ⟨{ st with sessions := st.sessions ++
          [⟨o.newId, some ⟨true⟩, SessionStatus.idle, o.now⟩] }, [],
        Except.ok ⟨o.newId, some ⟨true⟩, SessionStatus.idle, o.now⟩⟩ := by
  have hscan := scanIdle_of_no_idle o.probeOk o.now st.sessions hno
  have hnotle : ¬ (cfg.maxConcurrentBrowserSessions ≤ st.sessions.length) := not_le.mpr hlt
  have hset := setSessionEntry_of_fresh st.sessions
    ⟨o.newId, none, SessionStatus.launching, o.now⟩ hfresh
  simp only [DO.getSession, hscan, hnotle, if_false, hok, if_true, hset]
  rw [updateSession_append_fresh st.sessions _ o.newId _ hfresh rfl]

theorem getSession_launch_fail (cfg : Config) (o : DO.GSOracle) (st : DO.DOState)
    (hno : ∀ s ∈ st.sessions, DO.isIdleConnected s = false)
    (hlt : st.sessions.length < cfg.maxConcurrentBrowserSessions)
    (hfresh : o.newId ∉ st.sessions.map (fun s => s.id))
    (hfail : o.launchOk = false) :
    DO.getSession cfg o st =
      ⟨st, [DO.Ev.sessionRemoved o.newId], Except.error DO.AcquireErr.launchFailed⟩ := by
  have hscan := scanIdle_of_no_idle o.probeOk o.now st.sessions hno
  have hnotle : ¬ (cfg.maxConcurrentBrowserSessions ≤ st.sessions.length) := not_le.mpr hlt
  have hset := setSessionEntry_of_fresh st.sessions
    ⟨o.newId, none, SessionStatus.launching, o.now⟩ hfresh
  simp only [DO.getSession, hscan, hnotle, if_false, hfail, Bool.false_eq_true, hset]
  rw [removeSessionEntry_append_fresh st.sessions _ o.newId hfresh rfl]
  rfl

theorem kickLoop_backpressure_break (cfg : Config) (o : DO.IterOracle)
    (os : List DO.IterOracle) (st : DO.DOState)
    (hno : ∀ s ∈ st.sessions, DO.isIdleConnected s = false)
    (hfull : cfg.maxConcurrentBrowserSessions ≤ st.sessions.length) :
    (DO.kickLoop cfg (o :: os) st).thrown = none ∧
    (DO.kickLoop cfg (o :: os) st).st.queue = st.queue.dropWhile (DO.isStale cfg o.now) := by
  simp only [DO.kickLoop]
  set dr := DO.dropStaleGo cfg o.now st.queue st.pending with hdr
  set st1 : DO.DOState := { st with queue := dr.queue, pending := dr.pending } with hst1
  have hdrq : dr.queue = st.queue.dropWhile (DO.isStale cfg o.now) :=
    dropStaleGo_queue_eq cfg o.now st.queue st.pending
  have hg : DO.getSession cfg o.gs st1 =
      ⟨st1, [], Except.error DO.AcquireErr.noAvailableSession⟩ :=
    getSession_backpressure cfg o.gs st1 hno hfull
  by_cases hq : st1.queue.isEmpty
  · simp only [hq, if_true]
    exact ⟨trivial, hdrq⟩
  · simp only [hq, Bool.false_eq_true, if_false, hg]
    exact ⟨trivial, hdrq⟩

theorem kickStep_processing_eq (cfg : Config) (os : List DO.IterOracle) (st : DO.DOState) :
    (DO.kickStep cfg os st).st.processing = st.processing := by
  simp only [DO.kickStep]
  by_cases hp : st.processing
  · simp [hp]
  · simp [hp]

theorem kickStep_guard (cfg : Config) (os : List DO.IterOracle) (st : DO.DOState)
    (hp : st.processing = true) :
    DO.kickStep cfg os st = ⟨st, [], none⟩ := by
  simp [DO.kickStep, hp]

theorem alarmSweep_noop (cfg : Config) (now : Nat) (st : DO.DOState)
    (hz : ∀ (id : String) (s : BrowserSession), findSession st.sessions id = some s →
      DO.shouldClean cfg now s false = false) :
    ∀ ids : List String, DO.alarmSweep cfg now st ids = (st, []) := by
  intro ids
  induction ids with
  | nil => rfl
  | cons id rest ih =>
    simp only [DO.alarmSweep]
    have hclean : DO.cleanupSession cfg now st id false = (st, []) := by
      simp only [DO.cleanupSession]
      cases hf : findSession st.sessions id with
      | none => rfl
      | some s =>
        dsimp only
        rw [if_neg]
        rw [hz id s hf]
        simp
    rw [hclean, ih]
    simp

theorem alarmSweepF_ok (cfg : Config) (now : Nat) (fails : String → Bool) :
    ∀ (ids : List String) (st : DO.DOState),
      (∀ id ∈ ids, fails id = false) →
      ∃ st1 evs, DO.alarmSweepF cfg now fails st ids = Except.ok (st1, evs) := by
  intro ids
  induction ids with
  | nil => intro st _; exact ⟨st, [], rfl⟩
  | cons id rest ih =>
    intro st h
    have hid : fails id = false := h id (by simp)
    obtain ⟨st1, evs, hrec⟩ := ih (DO.cleanupSession cfg now st id false).1
      (fun i hi => h i (by simp [hi]))
    refine ⟨st1, (DO.cleanupSession cfg now st id false).2 ++ evs, ?_⟩
    simp only [DO.alarmSweepF, hid, Bool.false_eq_true, if_false, hrec]

/-! The claims. -/

/-- C1: for every reachable state of the session pool — any schedule of
enqueues, dispatcher passes, job completions, alarm sweeps and browser
disconnections from a start with at most N tracked sessions — and for any
configured capacity N, the number of sessions with status in
`{launching, idle, busy}` never exceeds N. The check is enforced at the
insertion point: `getSession` creates its fresh `launching` entry only in
the branch where the post-scan pool size, and hence the active count, is
below N, and the queue manager's `canProcessNewJob` guard keeps
`activeSessions` within its capacity likewise. -/
theorem claim_C1_capacity_invariant :
    (∀ (cfg : Config) (st0 : DO.DOState) (ls : List DO.Label),
        st0.sessions.length ≤ cfg.maxConcurrentBrowserSessions →
        activeCount (DO.run cfg st0 ls).1.sessions ≤ cfg.maxConcurrentBrowserSessions ∧
        (DO.run cfg st0 ls).1.sessions.length ≤ cfg.maxConcurrentBrowserSessions) ∧
    (∀ (cfg : Config) (o : DO.GSOracle) (st : DO.DOState),
        (DO.scanIdle o.probeOk o.now st.sessions).sessions.length <
            cfg.maxConcurrentBrowserSessions →
        activeCount (DO.scanIdle o.probeOk o.now st.sessions).sessions <
            cfg.maxConcurrentBrowserSessions) ∧
    (∀ (maxConc queueTimeout now : Nat) (newSessionId : String) (st : SQM.QState),
        st.activeSessions.length ≤ maxConc →
        (SQM.processQueue maxConc queueTimeout now newSessionId st).1.activeSessions.length ≤
          maxConc) := by
  refine ⟨?_, ?_, ?_⟩
  · intro cfg st0 ls h
    have hb := run_sessions_le cfg ls st0 h
    exact ⟨le_trans (activeCount_le_length _) hb, hb⟩
  · intro cfg o st h
    exact lt_of_le_of_lt (activeCount_le_length _) h
  · intro maxConc qt now nid st h
    exact sqm_processQueue_active_le maxConc qt now nid st h

/-- C1 witness: a concrete schedule of three enqueues, a dispatcher pass, a
job completion and an alarm tick from an empty pool. -/
theorem claim_C1_capacity_invariant_witness :
    DO.initState.sessions.length ≤ cfgDefault.maxConcurrentBrowserSessions ∧
    activeCount (DO.run cfgDefault DO.initState lsC1w).1.sessions ≤
      cfgDefault.maxConcurrentBrowserSessions :=
  ⟨by decide,
   (claim_C1_capacity_invariant.1 cfgDefault DO.initState lsC1w (by decide)).1⟩

/-- C3: admission is strictly FIFO. Over any run, the ids removed from the
queue (stale drops and dispatches, the only `queue.shift()` sites, in
order), followed by the ids still queued, equal the initial queue followed
by the enqueued ids in enqueue order; and the dispatched ids are an
order-preserving selection (sublist) of that removal order, so jobs are
dequeued for execution in exactly their enqueue order and no job is ever
reordered relative to another still in the queue. -/
theorem claim_C3_fifo_admission :
    ∀ (cfg : Config) (st0 : DO.DOState) (ls : List DO.Label),
      DO.removedIds (DO.run cfg st0 ls).2 ++
          ((DO.run cfg st0 ls).1.queue.map (fun j => j.id)) =
        st0.queue.map (fun j => j.id) ++ DO.enqueuedIds (DO.run cfg st0 ls).2 ∧
      List.Sublist (DO.dispatchedIds (DO.run cfg st0 ls).2)
        (DO.removedIds (DO.run cfg st0 ls).2) := by
  intro cfg st0 ls
  refine ⟨run_conservation cfg ls st0, ?_⟩
  apply filterMap_sublist_of_imp
  intro e x h
  cases e <;> simp_all [DO.Ev.dispId, DO.Ev.removalId]

/-- C4: stale eviction. (i) the eviction loop removes head jobs exactly
while they are stale (`dropWhile`), stopping at the first fresh head;
(ii) in every run, each stale drop / queue-timeout rejection of a job
enqueued at T happens at a time strictly after `T + queueTimeout`, and
every dispatch happens while the job is still within its residence window
— eviction runs before each dispatch decision; (iii) with unique job ids,
a stale-dropped job is never dispatched, so its capture operation is never
invoked; (iv) under a monotone clock (sorted queue timestamps), a job that
is stale at an eviction pass is rejected with the queue-timeout error on
that very pass and leaves the queue; (v) the `ScreenshotQueueManager`
rejects stale jobs with `QueueTimeoutError("Job timed out in queue")`. -/
theorem claim_C4_stale_eviction :
    (∀ (cfg : Config) (now : Nat) (q : List QueuedRequest) (p : List String),
        (DO.dropStaleGo cfg now q p).queue = q.dropWhile (DO.isStale cfg now)) ∧
    (∀ (cfg : Config) (st0 : DO.DOState) (ls : List DO.Label),
        ∀ ev ∈ (DO.run cfg st0 ls).2, DO.evTimingOk cfg ev = true) ∧
    (∀ (cfg : Config) (ls : List DO.Label),
        (DO.enqLabelIds ls).Nodup →
        ∀ id, id ∈ DO.staleIds (DO.run cfg DO.initState ls).2 →
          id ∉ DO.dispatchedIds (DO.run cfg DO.initState ls).2) ∧
    (∀ (cfg : Config) (now : Nat) (q : List QueuedRequest) (p : List String)
        (j : QueuedRequest),
        q.Pairwise (fun a b => a.enqueueTime ≤ b.enqueueTime) →
        (q.map (fun x => x.id)).Nodup →
        j ∈ q → DO.isStale cfg now j = true → j.id ∈ p →
        DO.Ev.rejectedQT j.id j.enqueueTime now ∈ (DO.dropStaleGo cfg now q p).evs ∧
        j ∉ (DO.dropStaleGo cfg now q p).queue) ∧
    (∀ (queueTimeout now : Nat) (q : List QueuedRequest) (p : List String),
        ∀ ev ∈ (SQM.removeStaleJobs queueTimeout now q p).2.2,
          ∃ id, ev = SQM.SEv.rejected id
            (SQM.SErr.queueTimeoutError "Job timed out in queue")) := by
  refine ⟨dropStaleGo_queue_eq, ?_, ?_, dropStale_rejects, sqm_removeStaleJobs_error_class⟩
  · intro cfg st0 ls
    exact run_timing cfg ls st0
  · intro cfg ls h id hstale hdisp
    have hnodup := run_removedIds_nodup cfg ls h
    have hsplit := removal_count_split (DO.run cfg DO.initState ls).2 id
    have h1 : 0 < (DO.staleIds (DO.run cfg DO.initState ls).2).count id :=
      List.count_pos_iff.mpr hstale
    have h2 : 0 < (DO.dispatchedIds (DO.run cfg DO.initState ls).2).count id :=
      List.count_pos_iff.mpr hdisp
    have h3 : (DO.removedIds (DO.run cfg DO.initState ls).2).count id ≤ 1 :=
      List.nodup_iff_count_le_one.mp hnodup id
    omega

/-- C4 witness: job j1 enqueued at time 0 goes stale before the dispatcher
pass at 1 900 001 ms (timeout 1 800 000 ms) and is never dispatched; the
eviction pass on the singleton queue rejects it with the queue-timeout
error. -/
theorem claim_C4_stale_eviction_witness :
    (DO.enqLabelIds lsC4w).Nodup ∧
    "j1" ∉ DO.dispatchedIds (DO.run cfgDefault DO.initState lsC4w).2 ∧
    DO.Ev.rejectedQT "j1" 0 2000000 ∈
      (DO.dropStaleGo cfgDefault 2000000 [⟨"j1", "https://a.example", 0⟩] ["j1"]).evs :=
  ⟨by decide,
   claim_C4_stale_eviction.2.2.1 cfgDefault lsC4w (by decide) "j1" (by decide),
   (claim_C4_stale_eviction.2.2.2.1 cfgDefault 2000000 [⟨"j1", "https://a.example", 0⟩]
      ["j1"] ⟨"j1", "https://a.example", 0⟩ (by simp) (by decide) (by decide) (by decide)
      (by decide)).1⟩

/-- C7: the pending-result table settles each job at most once and removes
the entry exactly when it settles. Over any run from a fresh instance with
unique job ids: each id is settled (resolved or rejected) at most once, the
number of pending-entry removals equals the number of settlements, and
every settlement event is immediately followed by the removal of that
job's entry. -/
theorem claim_C7_settle_once :
    ∀ (cfg : Config) (ls : List DO.Label),
      (DO.enqLabelIds ls).Nodup →
      (∀ id, DO.settleCount (DO.run cfg DO.initState ls).2 id ≤ 1) ∧
      (∀ id, DO.removePendCount (DO.run cfg DO.initState ls).2 id =
        DO.settleCount (DO.run cfg DO.initState ls).2 id) ∧
      DO.pairedSettles (DO.run cfg DO.initState ls).2 = true := by
  intro cfg ls h
  have hp := run_settle_props cfg ls DO.initState
  refine ⟨?_, ?_, hp.2.1⟩
  · intro id
    have hb := hp.2.2 id
    have henq : DO.enqueuedIds (DO.run cfg DO.initState ls).2 = DO.enqLabelIds ls :=
      enqueuedIds_run_eq cfg ls DO.initState
    have hle : (DO.enqLabelIds ls).count id ≤ 1 := List.nodup_iff_count_le_one.mp h id
    rw [henq] at hb
    have hinit : (DO.initState.pending).count id = 0 := rfl
    simp only [DO.settleCount]
    omega
  · intro id
    simp only [DO.removePendCount, DO.settleCount]
    rw [hp.1]

/-- C7 witness: two jobs dispatched and finished (one success, one failure)
plus a final empty pass — each settled exactly once. -/
theorem claim_C7_settle_once_witness :
    (DO.enqLabelIds lsC7w).Nodup ∧
    DO.settleCount (DO.run cfgDefault DO.initState lsC7w).2 "j1" ≤ 1 :=
  ⟨by decide, (claim_C7_settle_once cfgDefault lsC7w (by decide)).1 "j1"⟩

/-- C2 counterexample: with capacity N = 2 and active count exactly N (one
busy and one healthy idle session), `getSession` returns the idle session
rather than the Backpressure signal, so "whenever acquire() is called while
the active count equals N it returns Backpressure" is false as stated —
idle sessions count as active, and Backpressure is signalled only when the
reuse scan also comes up empty. -/
theorem claim_C2_counterexample :
    activeCount stC2x.sessions = cfgDefault.maxConcurrentBrowserSessions ∧
    (DO.getSession cfgDefault oC2x stC2x).result =
      Except.ok ⟨"s2", some ⟨true⟩, SessionStatus.idle, 5⟩ := ⟨rfl, rfl⟩

/-- C2 (amended): whenever acquire() is called while the pool's active count
equals the capacity N and no session is idle with a connected browser (so
the reuse scan finds nothing), it throws `NoAvailableSessionError` — the
internal Backpressure signal — immediately and without mutating the pool;
the dispatcher loop absorbs that signal: the pass ends with no exception
propagated and only stale-expired jobs leave the queue, so a queued
caller's pending entry keeps waiting instead of receiving an error. -/
theorem claim_C2_backpressure_at_capacity :
    ∀ (cfg : Config) (o : DO.GSOracle) (oi : DO.IterOracle) (os : List DO.IterOracle)
      (st : DO.DOState),
      activeCount st.sessions = cfg.maxConcurrentBrowserSessions →
      (∀ s ∈ st.sessions, DO.isIdleConnected s = false) →
      DO.getSession cfg o st = ⟨st, [], Except.error DO.AcquireErr.noAvailableSession⟩ ∧
      (DO.kickLoop cfg (oi :: os) st).thrown = none ∧
      (DO.kickLoop cfg (oi :: os) st).st.queue =
        st.queue.dropWhile (DO.isStale cfg oi.now) := by
  intro cfg o oi os st hact hno
  have hfull : cfg.maxConcurrentBrowserSessions ≤ st.sessions.length :=
    le_trans (le_of_eq hact.symm) (activeCount_le_length st.sessions)
  exact ⟨getSession_backpressure cfg o st hno hfull,
    (kickLoop_backpressure_break cfg oi os st hno hfull).1,
    (kickLoop_backpressure_break cfg oi os st hno hfull).2⟩

/-- C2 witness: a pool of two busy sessions at capacity 2 with a fresh job
queued. -/
theorem claim_C2_backpressure_witness :
    activeCount stC2w.sessions = cfgDefault.maxConcurrentBrowserSessions ∧
    (∀ s ∈ stC2w.sessions, DO.isIdleConnected s = false) ∧
    DO.getSession cfgDefault oC2w.gs stC2w =
      ⟨stC2w, [], Except.error DO.AcquireErr.noAvailableSession⟩ :=
  ⟨by decide, by decide,
   (claim_C2_backpressure_at_capacity cfgDefault oC2w.gs oC2w [] stC2w (by decide)
     (by decide)).1⟩

/-- C5 counterexample: from an empty pool a successful launch returns the
new session in status `idle`, not `busy` — `getSession` assigns
`newSession.status = "idle"` on launch success; it is the dispatcher's
hand-off to `executeJob` that subsequently marks it busy. -/
theorem claim_C5_counterexample :
    (DO.getSession cfgDefault oC5x DO.initState).result =
      Except.ok ⟨"n1", some ⟨true⟩, SessionStatus.idle, 7⟩ ∧
    SessionStatus.idle ≠ SessionStatus.busy := ⟨rfl, by decide⟩

/-- C5 (amended): when acquire() finds no idle session with a connected
browser and the pool is below capacity N, it creates a fresh `launching`
entry and attempts the launch under the launch timeout; on success the
entry becomes a connected session in status `idle` (not busy) and is
returned — the dispatcher marks it busy as it hands it to the job runner,
as the closing scenario shows; on failure or timeout the entry is removed
and the pool is exactly as before, with the error being the launch failure,
which is distinct from Backpressure. -/
theorem claim_C5_launch_path :
    (∀ (cfg : Config) (o : DO.GSOracle) (st : DO.DOState),
      (∀ s ∈ st.sessions, DO.isIdleConnected s = false) →
      st.sessions.length < cfg.maxConcurrentBrowserSessions →
      o.newId ∉ st.sessions.map (fun s => s.id) →
      (o.launchOk = true →
        DO.getSession cfg o st =
          ⟨{ st with sessions := st.sessions ++
              [⟨o.newId, some ⟨true⟩, SessionStatus.idle, o.now⟩] }, [],
            Except.ok ⟨o.newId, some ⟨true⟩, SessionStatus.idle, o.now⟩⟩) ∧
      (o.launchOk = false →
        DO.getSession cfg o st =
          ⟨st, [DO.Ev.sessionRemoved o.newId], Except.error DO.AcquireErr.launchFailed⟩)) ∧
    DO.AcquireErr.launchFailed ≠ DO.AcquireErr.noAvailableSession ∧
    (DO.run cfgDefault DO.initState
        [DO.Label.enq "j1" "https://a.example" 0,
         DO.Label.kick [⟨1, ⟨fun _ => true, true, "n1", 1⟩⟩]]).1.sessions =
      [⟨"n1", some ⟨true⟩, SessionStatus.busy, 1⟩] := by
  refine ⟨?_, by decide, by rfl⟩
  intro cfg o st hno hlt hfresh
  exact ⟨fun hok => getSession_launch_ok cfg o st hno hlt hfresh hok,
    fun hfail => getSession_launch_fail cfg o st hno hlt hfresh hfail⟩

/-- C5 witness: one busy session below capacity 2; a successful launch
returns a fresh idle session, a failed launch leaves the pool unchanged and
surfaces the launch error. -/
theorem claim_C5_launch_path_witness :
    (∀ s ∈ stC5w.sessions, DO.isIdleConnected s = false) ∧
    stC5w.sessions.length < cfgDefault.maxConcurrentBrowserSessions ∧
    (DO.getSession cfgDefault oC5w stC5w).result =
      Except.ok ⟨"n7", some ⟨true⟩, SessionStatus.idle, 11⟩ ∧
    DO.getSession cfgDefault oC5wf stC5w =
      ⟨stC5w, [DO.Ev.sessionRemoved "n7"], Except.error DO.AcquireErr.launchFailed⟩ :=
  ⟨by decide, by decide,
   by
     rw [(claim_C5_launch_path.1 cfgDefault oC5w stC5w (by decide) (by decide)
       (by decide)).1 rfl]
     rfl,
   (claim_C5_launch_path.1 cfgDefault oC5wf stC5w (by decide) (by decide)
       (by decide)).2 rfl⟩

/-- C6 counterexample: a job-runner failure — a session-corrupting one
included, since `executeJob`'s catch does not classify errors — neither
marks the session `terminating` nor tears it down: the `finally` puts the
session straight back to `idle` in the pool. -/
theorem claim_C6_counterexample :
    (DO.finishStep stC6x "j1" "s1" false 9).1.sessions =
      [⟨"s1", some ⟨true⟩, SessionStatus.idle, 9⟩] ∧
    (DO.finishStep stC6x "j1" "s1" false 9).2 =
      [DO.Ev.settledErr "j1", DO.Ev.pendingRemoved "j1"] := ⟨rfl, rfl⟩

/-- C6 (amended): after a job finishes, `executeJob` settles and removes the
pending entry and releases its session back to `idle` with a refreshed
last-used stamp regardless of how the job ended — the DO performs no
failure classification. Only the legacy `_takeScreenshot` path reacts to
errors, and it treats every error as session-corrupting: the session is
marked `terminating` and forcibly torn down (removed from the pool), and
that path's final release guard returns only `busy` sessions to `idle`, so
a session already `terminating`/`failed` is never returned to idle. -/
theorem claim_C6_release_paths :
    (∀ (st : DO.DOState) (j sid : String) (ok : Bool) (now : Nat) (s : BrowserSession),
      st.inflight.contains (j, sid) = true →
      findSession st.sessions sid = some s →
      findSession (DO.finishStep st j sid ok now).1.sessions sid =
        some { s with status := SessionStatus.idle, lastUsed := now }) ∧
    (∀ (cfg : Config) (now : Nat) (st : DO.DOState) (sid : String),
      (st.sessions.map (fun s => s.id)).Nodup →
      findSession (Legacy.screenshotCatch cfg now st sid).1.sessions sid = none) ∧
    (∀ (st : DO.DOState) (sid : String) (now : Nat) (s : BrowserSession),
      findSession st.sessions sid = some s → s.status ≠ SessionStatus.busy →
      Legacy.screenshotFinally st sid now = st) := by
  refine ⟨?_, ?_, ?_⟩
  · intro st j sid ok now s hin hfind
    simp only [DO.finishStep, hin, if_true]
    rw [findSession_updateSession_self
      (fun t => { t with status := SessionStatus.idle, lastUsed := now })
      (fun t => rfl) st.sessions sid, hfind]
    rfl
  · intro cfg now st sid hnd
    simp only [Legacy.screenshotCatch, DO.cleanupSession]
    have hup := findSession_updateSession_self
      (fun s => { s with status := SessionStatus.terminating }) (fun t => rfl)
      st.sessions sid
    cases hf : findSession st.sessions sid with
    | none =>
      have hup2 : findSession (updateSession st.sessions sid
          (fun s => { s with status := SessionStatus.terminating })) sid = none := by
        rw [hup, hf]; rfl
      simp only [hup2]
    | some s =>
      have hup2 : findSession (updateSession st.sessions sid
          (fun s => { s with status := SessionStatus.terminating })) sid =
          some { s with status := SessionStatus.terminating } := by
        rw [hup, hf]; rfl
      simp only [hup2]
      have hforce : DO.shouldClean cfg now { s with status := SessionStatus.terminating }
          true = true := by simp [DO.shouldClean]
      simp only [hforce, if_true]
      apply findSession_removeSessionEntry_self
      rw [updateSession_ids
        (fun s => { s with status := SessionStatus.terminating }) (fun t => rfl)]
      exact hnd
  · intro st sid now s hfind hbusy
    simp only [Legacy.screenshotFinally, hfind]
    simp [hbusy]

/-- C6 witness: a failing finish on a pooled busy session releases it to
idle, and the legacy final guard leaves a terminating session unchanged. -/
theorem claim_C6_release_paths_witness :
    stC6x.inflight.contains ("j1", "s1") = true ∧
    findSession (DO.finishStep stC6x "j1" "s1" false 9).1.sessions "s1" =
      some ⟨"s1", some ⟨true⟩, SessionStatus.idle, 9⟩ ∧
    Legacy.screenshotFinally stC6w "s1" 9 = stC6w :=
  ⟨by decide,
   claim_C6_release_paths.1 stC6x "j1" "s1" false 9
     ⟨"s1", some ⟨true⟩, SessionStatus.busy, 0⟩ (by decide) (by decide),
   claim_C6_release_paths.2.2 stC6w "s1" 9
     ⟨"s1", some ⟨true⟩, SessionStatus.terminating, 0⟩ (by decide) (by decide)⟩

/-- C8 counterexample: a dispatcher trigger that arrives while a loop is
already running (`processing = true`) returns immediately with the state
unchanged and an empty event trace even though a job is waiting in the
queue — the trigger is silently dropped; nothing schedules a follow-up
iteration for after the running loop exits. -/
theorem claim_C8_counterexample :
    stC8xBusy.processing = true ∧
    stC8xBusy.queue ≠ [] ∧
    DO.kickStep cfgDefault osC8x stC8xBusy = ⟨stC8xBusy, [], none⟩ :=
  ⟨rfl, by decide, rfl⟩

/-- C8 (amended): at most one dispatcher loop instance runs at a time — the
`processing` flag guards entry and is restored when the pass exits — and a
trigger arriving while the flag is set returns immediately with no effect
and schedules nothing: it is dropped, with queued work left to the
already-running loop, later triggers, or the alarm. In the
`ScreenshotQueueManager` variant the `finally` instead schedules exactly
one retry pass 100 ms later whenever jobs remain queued at exit. -/
theorem claim_C8_dispatch_guard :
    (∀ (cfg : Config) (os : List DO.IterOracle) (st : DO.DOState),
      st.processing = true → DO.kickStep cfg os st = ⟨st, [], none⟩) ∧
    (∀ (cfg : Config) (os : List DO.IterOracle) (st : DO.DOState),
      (DO.kickStep cfg os st).st.processing = st.processing) ∧
    (∀ (maxConc queueTimeout now : Nat) (newSessionId : String) (st : SQM.QState),
      st.processing = false →
      (SQM.processQueue maxConc queueTimeout now newSessionId st).2.2 =
        !(SQM.processQueue maxConc queueTimeout now newSessionId st).1.queue.isEmpty) := by
  refine ⟨?_, kickStep_processing_eq, ?_⟩
  · intro cfg os st hp
    exact kickStep_guard cfg os st hp
  · intro maxConc qt now nid st hp
    simp only [SQM.processQueue, hp, Bool.false_eq_true, if_false]

/-- C8 witness: the queue-manager pass on a non-processing state with two
queued jobs reports its retry-scheduling flag as "jobs remain queued". -/
theorem claim_C8_dispatch_guard_witness :
    stC8w.processing = false ∧
    (SQM.processQueue 10 600000 5 "sess1" stC8w).2.2 =
      !(SQM.processQueue 10 600000 5 "sess1" stC8w).1.queue.isEmpty :=
  ⟨rfl, claim_C8_dispatch_guard.2.2 10 600000 5 "sess1" stC8w rfl⟩

/-- C9 counterexample: (i) reaper — when the awaited cleanup step for a
session rejects (the storage write inside `cleanupSession`), the exception
propagates out of `alarm()` before `setAlarm` runs, so that tick does not
re-arm; (ii) dispatcher — `kickoffQueue` catches only
`NoAvailableSessionError`, so a launch failure is rethrown out of the loop
instead of being caught and logged. -/
theorem claim_C9_counterexample :
    DO.alarmF cfgDefault 50 (fun _ => true) stC9x =
      Except.error "storage put rejected in cleanupSession" ∧
    (DO.kickStep cfgDefault osK9x stK9x).thrown = some DO.AcquireErr.launchFailed :=
  ⟨rfl, rfl⟩

/-- C9 (amended): the reaper re-arms itself after every tick whose cleanup
steps all complete without throwing; an exception from an awaited cleanup
step propagates out of `alarm()` and skips the re-arm (recovery is left to
the platform's alarm retry). In the dispatcher, only the backpressure
signal (`NoAvailableSessionError`) is caught; any other exception
propagates out of the loop as an unhandled rejection, though the `finally`
always restores the `processing` flag, so a later trigger can run the
dispatcher again. -/
theorem claim_C9_reaper_rearm :
    (∀ (cfg : Config) (now : Nat) (fails : String → Bool) (st : DO.DOState),
      (∀ s ∈ st.sessions, fails s.id = false) →
      ∃ st1 evs, DO.alarmF cfg now fails st = Except.ok (st1, evs) ∧
        DO.Ev.alarmRearmed (now + cfg.alarmIntervalMs) ∈ evs) ∧
    (∀ (cfg : Config) (os : List DO.IterOracle) (st : DO.DOState),
      (DO.kickStep cfg os st).st.processing = st.processing) := by
  refine ⟨?_, kickStep_processing_eq⟩
  intro cfg now fails st h
  have hids : ∀ id ∈ st.sessions.map (fun s => s.id), fails id = false := by
    intro id hid
    obtain ⟨s, hs, rfl⟩ := List.mem_map.mp hid
    exact h s hs
  obtain ⟨st1, evs, hok⟩ :=
    alarmSweepF_ok cfg now fails (st.sessions.map (fun s => s.id)) st hids
  refine ⟨st1, evs ++ [DO.Ev.alarmRearmed (now + cfg.alarmIntervalMs)], ?_, by simp⟩
  simp only [DO.alarmF, hok]

/-- C9 witness: with no cleanup step failing, the tick on a one-session pool
re-arms the alarm. -/
theorem claim_C9_reaper_rearm_witness :
    (∀ s ∈ stC9x.sessions, (fun (_ : String) => false) s.id = false) ∧
    (∃ st1 evs, DO.alarmF cfgDefault 50 (fun _ => false) stC9x = Except.ok (st1, evs) ∧
      DO.Ev.alarmRearmed (50 + cfgDefault.alarmIntervalMs) ∈ evs) :=
  ⟨fun _ _ => rfl,
   claim_C9_reaper_rearm.1 cfgDefault 50 (fun _ => false) stC9x (fun _ _ => rfl)⟩

/-- C10: a session restored from storage with `busy` or `launching` status
and a null browser handle is a zombie: non-forced `cleanupSession` matches
none of its eligibility conditions and leaves the entry unchanged — so the
alarm sweep over a pool of such zombies only re-arms — yet every zombie
still counts toward the `sessions.size >= MAX` capacity check, so a pool
full of zombies makes `getSession` signal Backpressure and admission
capacity stays reduced until the entries are removed by some other means. -/
theorem claim_C10_zombie_sessions :
    (∀ (cfg : Config) (now : Nat) (st : DO.DOState) (sid : String) (s : BrowserSession),
      findSession st.sessions sid = some s →
      s.browser = none →
      (s.status = SessionStatus.busy ∨ s.status = SessionStatus.launching) →
      DO.cleanupSession cfg now st sid false = (st, [])) ∧
    (∀ (cfg : Config) (now : Nat) (st : DO.DOState),
      (∀ s ∈ st.sessions, s.browser = none ∧
        (s.status = SessionStatus.busy ∨ s.status = SessionStatus.launching)) →
      DO.alarmStep cfg now st =
        (st, [DO.Ev.alarmRearmed (now + cfg.alarmIntervalMs)])) ∧
    (∀ (cfg : Config) (o : DO.GSOracle) (st : DO.DOState),
      (∀ s ∈ st.sessions, s.browser = none ∧
        (s.status = SessionStatus.busy ∨ s.status = SessionStatus.launching)) →
      cfg.maxConcurrentBrowserSessions ≤ st.sessions.length →
      DO.getSession cfg o st = ⟨st, [], Except.error DO.AcquireErr.noAvailableSession⟩) := by
  refine ⟨?_, ?_, ?_⟩
  · intro cfg now st sid s hfind hb hstat
    have hclean : DO.shouldClean cfg now s false = false := by
      rcases hstat with h | h <;> simp [DO.shouldClean, hb, h]
    simp [DO.cleanupSession, hfind, hclean]
  · intro cfg now st h
    have hz : ∀ (id : String) (s : BrowserSession), findSession st.sessions id = some s →
        DO.shouldClean cfg now s false = false := by
      intro id s hfind
      have hs := h s (findSession_mem st.sessions id s hfind)
      rcases hs.2 with h2 | h2 <;> simp [DO.shouldClean, hs.1, h2]
    simp only [DO.alarmStep, alarmSweep_noop cfg now st hz]
    rfl
  · intro cfg o st h hfull
    apply getSession_backpressure cfg o st _ hfull
    intro s hs
    rcases (h s hs).2 with h2 | h2 <;> simp [DO.isIdleConnected, h2]

/-- C10 witness: two zombie sessions (busy / launching, null browser) fill
capacity 2; the alarm leaves them and acquire signals Backpressure. -/
theorem claim_C10_zombie_sessions_witness :
    (∀ s ∈ stC10w.sessions, s.browser = none ∧
      (s.status = SessionStatus.busy ∨ s.status = SessionStatus.launching)) ∧
    cfgDefault.maxConcurrentBrowserSessions ≤ stC10w.sessions.length ∧
    DO.getSession cfgDefault oC10w stC10w =
      ⟨stC10w, [], Except.error DO.AcquireErr.noAvailableSession⟩ ∧
    DO.alarmStep cfgDefault 100000000 stC10w =
      (stC10w, [DO.Ev.alarmRearmed (100000000 + cfgDefault.alarmIntervalMs)]) :=
  ⟨by decide, by decide,
   claim_C10_zombie_sessions.2.2 cfgDefault oC10w stC10w (by decide) (by decide),
   claim_C10_zombie_sessions.2.1 cfgDefault 100000000 stC10w (by decide)⟩
